import Mathlib

/-!
# Verification of the mgd telegraf input plugin (plugins/inputs/mgd/mgd.go)

Shallow embedding of the status-mapping logic of the plugin.  The dynamic
Go values (`interface{}` holding decoded JSON) are modelled by `GoVal`;
Go maps (`map[string]interface{}`, `map[string]string`) are modelled by
association lists (Go map iteration order is unspecified; the embedding
determinizes it to list order, which is irrelevant for every property
proved below except that it fixes a concrete emission order for the
dynamic-key loop of `gatherDownsteram`).  A failed Go type assertion
(`v.(T)` panicking) is modelled by `Except String`; emissions already
delivered to the accumulator before the panic are kept in the result so
that partial-emission behaviour is faithfully represented.

Machine integers: JSON numbers decode to Go `float64`; they are modelled
as exact rationals `ℚ`, and Go's `int(f)` conversion (truncation toward
zero) is modelled by `goTrunc`.
-/

set_option autoImplicit false

namespace Mgd

/-- A dynamically typed Go value (`interface{}`) as produced by decoding
JSON (`null`, `bool`, `num`, `str`, `arr`, `obj`) or by the mapper's own
`int(...)` coercions (`int`). -/
inductive GoVal where
  | null
  | bool (b : Bool)
  | num (q : ℚ)
  | str (s : String)
  | arr (xs : List GoVal)
  | obj (fs : List (String × GoVal))
  | int (n : ℤ)

/-- A Go `map[string]interface{}` (one section entry, or a field set). -/
abbrev Entry := List (String × GoVal)

/-- A Go `map[string]string` (a tag map). -/
abbrev TagMap := List (String × String)

/-- Go map read `m[k]`: the zero value of `interface{}` (i.e. `nil`,
modelled as `GoVal.null`) when the key is absent. -/
def mapGet (m : Entry) (k : String) : GoVal :=
  match m.find? (fun kv => kv.1 == k) with
  | some kv => kv.2
  | none => GoVal.null

/-- Go map write `m[k] = v`: overwrite an existing binding, else append. -/
def upsert {β : Type} (m : List (String × β)) (k : String) (v : β) :
    List (String × β) :=
  if m.any (fun kv => kv.1 == k) then
    m.map (fun kv => if kv.1 == k then (k, v) else kv)
  else m ++ [(k, v)]

/-- Optional lookup in a field set or tag map (used only in statements). -/
def lookupKey {β : Type} (m : List (String × β)) (k : String) : Option β :=
  (m.find? (fun kv => kv.1 == k)).map (fun kv => kv.2)

/-- The Go copy loop `for k, v := range tags { accTags[k] = v }` builds a
fresh map holding the same bindings; at the level of pure values it is the
identity.  The freshness (aliasing) aspect is modelled separately by the
heap-instrumented embedding below. -/
def copyTags (t : TagMap) : TagMap := t

/-- Go type assertion `v.(float64)`; panics (here: errors) on anything
else, including the `nil` read back for an absent key. -/
def asFloat : GoVal → Except String ℚ
  | GoVal.num q => Except.ok q
  | _ => Except.error "interface conversion: not float64"

/-- Go type assertion `v.(string)`. -/
def asString : GoVal → Except String String
  | GoVal.str s => Except.ok s
  | _ => Except.error "interface conversion: not string"

/-- Go type assertion `v.(map[string]interface{})`. -/
def asObj : GoVal → Except String (List (String × GoVal))
  | GoVal.obj fs => Except.ok fs
  | _ => Except.error "interface conversion: not map"

/-- Total projection of an object value (used only in statements; the
routines themselves use the failing assertion `asObj`). -/
def getObj : GoVal → List (String × GoVal)
  | GoVal.obj fs => fs
  | _ => []

/-- Go `strings.HasPrefix` over explicit character lists (Go strings
are byte slices; the addresses and keys here are ASCII, so characters
coincide with bytes). -/
def listHasPre : List Char → List Char → Bool
  | [], _ => true
  | _ :: _, [] => false
  | c :: cs, d :: ds => (c == d) && listHasPre cs ds

/-- Go `strings.HasPrefix(s, p)`. -/
def hasPre (p s : String) : Bool := listHasPre p.toList s.toList

/-- Go string slicing `s[n:]`. -/
def strDrop (s : String) (n : Nat) : String := String.mk (s.toList.drop n)

/-- Go's `int(f)` conversion of a `float64`: truncation toward zero.
On an exact rational `num/den` (with `den > 0`) this is the T-division
of the numerator by the denominator. -/
def goTrunc (q : ℚ) : ℤ := Int.tdiv q.num (q.den : ℤ)

/-- One metric emission: the arguments of one `acc.AddFields` call. -/
structure Emission where
  measurement : String
  fields : Entry
  tags : TagMap

/-- The decoded `ServerStatus` struct. -/
structure ServerStatus where
  name : String
  startAt : ℤ

/-- The decoded `MgdStatus` struct (field names as in the Go source,
including the verbatim `downsteram`). -/
structure MgdStatus where
  server : ServerStatus
  downsteram : List Entry
  upstream : List Entry
  inversestream : List Entry
  frontstream : List Entry

/-- The field-map literal of `gatherInversestream`, after the float
assertions succeeded with the given values (`qsw` is the re-assertion
of `"fifteen-minute"` used for the duplicate `"sw"` field). -/
def invFields (status : Entry) (q1 q5 q15 qsw s1 s5 s15 : ℚ) : Entry :=
  [("ok", mapGet status "ok"),
   ("jobs", mapGet status "jobs"),
   ("one-minute", GoVal.int (goTrunc q1)),
   ("five-minute", GoVal.int (goTrunc q5)),
   ("fifteen-minute", GoVal.int (goTrunc q15)),
   ("sw", GoVal.int (goTrunc qsw)),
   ("sw-one-minute", GoVal.int (goTrunc s1)),
   ("sw-five-minute", GoVal.int (goTrunc s5)),
   ("sw-fifteen-minute", GoVal.int (goTrunc s15))]

/-- Core of `gatherInversestream`: the type assertions and the value of
the single emission.  The Go source evaluates the field-map literal
(asserting the six minute-suffixed floats, with `"sw"` re-asserting
`"fifteen-minute"`) and then asserts `status["name"].(string)`. -/
def invCore (tags : TagMap) (status : Entry) : Except String Emission := do
  let q1 ← asFloat (mapGet status "one-minute")
  let q5 ← asFloat (mapGet status "five-minute")
  let q15 ← asFloat (mapGet status "fifteen-minute")
  let qsw ← asFloat (mapGet status "fifteen-minute")
  let s1 ← asFloat (mapGet status "sw-one-minute")
  let s5 ← asFloat (mapGet status "sw-five-minute")
  let s15 ← asFloat (mapGet status "sw-fifteen-minute")
  let nm ← asString (mapGet status "name")
  pure { measurement := "inversestream",
         fields := invFields status q1 q5 q15 qsw s1 s5 s15,
         tags := upsert (copyTags tags) "name" nm }

/-- `gatherInversestream`: emissions delivered to the accumulator paired
with the panic, if any.  All assertions precede the single `AddFields`
call, so a failing entry delivers nothing. -/
def gatherInversestream (tags : TagMap) (status : Entry) :
    List Emission × Option String :=
  match invCore tags status with
  | Except.ok e => ([e], none)
  | Except.error err => ([], some err)

/-- The five percentile inserts shared verbatim by `gatherUpsteam` and
`gatherDownsteram`: `fields["tr-50"] = percentiles["50"]`, …, looked up
by the fixed keys under the asserted `tr-percentiles` object (a Go map
read of an absent key yields `nil`, i.e. `GoVal.null`, which is then
stored under the `tr-` key). -/
def pctsInserts (fields0 : Entry) (pcts : List (String × GoVal)) : Entry :=
  upsert (upsert (upsert (upsert (upsert fields0
    "tr-50" (mapGet pcts "50"))
    "tr-75" (mapGet pcts "75"))
    "tr-95" (mapGet pcts "95"))
    "tr-99" (mapGet pcts "99"))
    "tr-999" (mapGet pcts "999")

/-- The field-map literal of `gatherUpsteam`. -/
def upFields0 (status : Entry) (q1 q5 q15 : ℚ) : Entry :=
  [("ok", mapGet status "ok"),
   ("jobs", mapGet status "jobs"),
   ("fail", mapGet status "fail"),
   ("idling", mapGet status "idling"),
   ("success", mapGet status "success"),
   ("current", mapGet status "current"),
   ("one-minute", GoVal.int (goTrunc q1)),
   ("five-minute", GoVal.int (goTrunc q5)),
   ("fifteen-minute", GoVal.int (goTrunc q15)),
   ("tr-min", mapGet status "tr-min"),
   ("tr-max", mapGet status "tr-max")]

/-- Core of `gatherUpsteam` (sic): tag asserts, field-map literal,
`tr-percentiles` assert, percentile inserts. -/
def upCore (tags : TagMap) (status : Entry) : Except String Emission := do
  let nm ← asString (mapGet status "name")
  let src ← asString (mapGet status "src")
  let q1 ← asFloat (mapGet status "one-minute")
  let q5 ← asFloat (mapGet status "five-minute")
  let q15 ← asFloat (mapGet status "fifteen-minute")
  let pcts ← asObj (mapGet status "tr-percentiles")
  pure { measurement := "upstream",
         fields := pctsInserts (upFields0 status q1 q5 q15) pcts,
         tags := upsert (upsert (copyTags tags) "name" nm) "src" src }

/-- `gatherUpsteam`. -/
def gatherUpsteam (tags : TagMap) (status : Entry) :
    List Emission × Option String :=
  match upCore tags status with
  | Except.ok e => ([e], none)
  | Except.error err => ([], some err)

/-- The field-map literal of `gatherFrontstream`. -/
def frontFields (status : Entry) (q1 q5 q15 : ℚ) : Entry :=
  [("ok", mapGet status "ok"),
   ("jobs", mapGet status "jobs"),
   ("fail", mapGet status "fail"),
   ("one-minute", GoVal.int (goTrunc q1)),
   ("five-minute", GoVal.int (goTrunc q5)),
   ("fifteen-minute", GoVal.int (goTrunc q15))]

/-- Core of `gatherFrontstream`. -/
def frontCore (tags : TagMap) (status : Entry) : Except String Emission := do
  let q1 ← asFloat (mapGet status "one-minute")
  let q5 ← asFloat (mapGet status "five-minute")
  let q15 ← asFloat (mapGet status "fifteen-minute")
  let nm ← asString (mapGet status "name")
  pure { measurement := "frontstream",
         fields := frontFields status q1 q5 q15,
         tags := upsert (copyTags tags) "name" nm }

/-- `gatherFrontstream`. -/
def gatherFrontstream (tags : TagMap) (status : Entry) :
    List Emission × Option String :=
  match frontCore tags status with
  | Except.ok e => ([e], none)
  | Except.error err => ([], some err)

/-- The field-map literal of `gatherDownsteram`. -/
def downFields0 (status : Entry) (q1 q5 q15 : ℚ) : Entry :=
  [("ok", mapGet status "ok"),
   ("jobs", mapGet status "jobs"),
   ("fail", mapGet status "fail"),
   ("success", mapGet status "success"),
   ("current", mapGet status "current"),
   ("one-minute", GoVal.int (goTrunc q1)),
   ("five-minute", GoVal.int (goTrunc q5)),
   ("fifteen-minute", GoVal.int (goTrunc q15)),
   ("tr-min", mapGet status "tr-min"),
   ("tr-max", mapGet status "tr-max")]

/-- Core of `gatherDownsteram` (sic) up to and excluding the dynamic-key
loop: the primary tag map and the primary field set. -/
def downCore (tags : TagMap) (status : Entry) :
    Except String (TagMap × Entry) := do
  let nm ← asString (mapGet status "name")
  let app ← asString (mapGet status "app")
  let q1 ← asFloat (mapGet status "one-minute")
  let q5 ← asFloat (mapGet status "five-minute")
  let q15 ← asFloat (mapGet status "fifteen-minute")
  let pcts ← asObj (mapGet status "tr-percentiles")
  pure (upsert (upsert (copyTags tags) "name" nm) "app" app,
        pctsInserts (downFields0 status q1 q5 q15) pcts)

/-- The dynamic-key loop of `gatherDownsteram`: for each key of the raw
entry, a `"code-"` key yields a `"dsc"` emission and an `"fbs-"` key an
`"fbs"` emission, the associated value asserted to be a nested map and
used verbatim as the field set; the tag map is a fresh copy of the
primary tags plus the stripped key.  A failing assertion aborts the loop
keeping the emissions already delivered. -/
def downLoop (accTags : TagMap) : List (String × GoVal) →
    List Emission × Option String
  | [] => ([], none)
  | kv :: rest =>
    if hasPre "code-" kv.1 then
      match asObj kv.2 with
      | Except.error err => ([], some err)
      | Except.ok fs =>
        let t := upsert (copyTags accTags) "code" (strDrop kv.1 5)
        let r := downLoop accTags rest
        (Emission.mk "dsc" fs t :: r.1, r.2)
    else if hasPre "fbs-" kv.1 then
      match asObj kv.2 with
      | Except.error err => ([], some err)
      | Except.ok fs =>
        let t := upsert (copyTags accTags) "fbs" (strDrop kv.1 4)
        let r := downLoop accTags rest
        (Emission.mk "fbs" fs t :: r.1, r.2)
    else downLoop accTags rest

/-- `gatherDownsteram`: primary tags and fields first, then the
dynamic-key loop delivering the secondary emissions, then the primary
emission under the verbatim measurement name `"downsteram"`. -/
def gatherDownsteram (tags : TagMap) (status : Entry) :
    List Emission × Option String :=
  match downCore tags status with
  | Except.error err => ([], some err)
  | Except.ok (accTags, fields) =>
    let r := downLoop accTags status
    match r.2 with
    | some err => (r.1, some err)
    | none => (r.1 ++ [Emission.mk "downsteram" fields accTags], none)

/-- Run one extraction routine over the entries of a section, fail-fast,
keeping the emissions delivered before a failure. -/
def runList {α : Type} (f : α → List Emission × Option String) :
    List α → List Emission × Option String
  | [] => ([], none)
  | x :: xs =>
    let r := f x
    match r.2 with
    | some err => (r.1, some err)
    | none =>
      let rest := runList f xs
      (r.1 ++ rest.1, rest.2)

/-- The per-server mapping pass of `gatherServer` after a successful
fetch and decode: the four section loops in source order
(Inversestream, Upstream, Downsteram, Frontstream), fail-fast, keeping
the emissions delivered before a failure. -/
def mapServer (tags : TagMap) (doc : MgdStatus) :
    List Emission × Option String :=
  let rI := runList (gatherInversestream tags) doc.inversestream
  match rI.2 with
  | some err => (rI.1, some err)
  | none =>
    let rU := runList (gatherUpsteam tags) doc.upstream
    match rU.2 with
    | some err => (rI.1 ++ rU.1, some err)
    | none =>
      let rD := runList (gatherDownsteram tags) doc.downsteram
      match rD.2 with
      | some err => (rI.1 ++ rU.1 ++ rD.1, some err)
      | none =>
        let rF := runList (gatherFrontstream tags) doc.frontstream
        (rI.1 ++ rU.1 ++ rD.1 ++ rF.1, rF.2)

/-- Index of the first occurrence of a character in a byte/char sequence
(Go `byteIndex`). -/
def firstIdx (cs : List Char) (c : Char) : Option Nat :=
  cs.findIdx? (fun d => d == c)

/-- Index of the last occurrence of a character (Go `last`). -/
def lastIdx (cs : List Char) (c : Char) : Option Nat :=
  match firstIdx cs.reverse c with
  | none => none
  | some j => some (cs.length - 1 - j)

/-- Whether `net.SplitHostPort` (Go standard library, the collaborator
used by `gatherServer` to decide port defaulting) reports an error on
the given address: no colon at all (missing port); a bracketed host not
of the form `[..]:port`; a colon inside an unbracketed host (too many
colons); or stray brackets.  Transcribed from the Go standard library
implementation; addresses here are ASCII so chars coincide with bytes. -/
def splitHostPortErr (s : String) : Bool :=
  let cs := s.toList
  match lastIdx cs ':' with
  | none => true
  | some i =>
    if cs.head? == some '[' then
      match firstIdx cs ']' with
      | none => true
      | some e =>
        if e + 1 == cs.length then true
        else if e + 1 == i then
          (cs.drop 1).contains '[' || (cs.drop (e + 1)).contains ']'
        else true
    else
      (cs.take i).contains ':' || cs.contains '[' || cs.contains ']'

/-- The address-defaulting step at the top of `gatherServer`: append the
default port `":50000"` exactly when `net.SplitHostPort` fails on the
configured address. -/
def resolveAddress (address : String) : String :=
  if splitHostPortErr address then address ++ ":50000" else address

/-- The observable outcome of a gather pass: the addresses fetched (in
order), the emissions delivered to the accumulator (in order), and the
propagated error, if any. -/
structure GatherOut where
  fetched : List String
  emissions : List Emission
  err : Option String

/-- `gatherServer`: resolve the address, perform one fetch-and-decode
(abstracted as the `fetch` collaborator covering both transport and
decode errors), tag with the resolved address, and run the mapping
pass. -/
def gatherServer (fetch : String → Except String MgdStatus)
    (address : String) : GatherOut :=
  let addr := resolveAddress address
  match fetch addr with
  | Except.error e => GatherOut.mk [addr] [] (some e)
  | Except.ok doc =>
    let r := mapServer [("server", addr)] doc
    GatherOut.mk [addr] r.1 r.2

/-- The loop of `Gather` over the configured servers: sequential, in
configuration order, returning the first error immediately. -/
def gatherLoop (fetch : String → Except String MgdStatus) :
    List String → GatherOut
  | [] => GatherOut.mk [] [] none
  | s :: ss =>
    let r := gatherServer fetch s
    match r.err with
    | some e => GatherOut.mk r.fetched r.emissions (some e)
    | none =>
      let rest := gatherLoop fetch ss
      GatherOut.mk (r.fetched ++ rest.fetched)
        (r.emissions ++ rest.emissions) rest.err

/-- `Gather`: an empty server list polls the single default address
`":50000"`; otherwise the servers are polled in order, fail-fast. -/
def Gather (servers : List String)
    (fetch : String → Except String MgdStatus) : GatherOut :=
  if servers.length == 0 then gatherServer fetch ":50000"
  else gatherLoop fetch servers

/-! ## Heap-instrumented embedding

Go tag maps are mutable heap objects; the pure embedding above erases
their identity.  To state the copy-isolation property the same routines
are given below with tag maps living in an explicit store (`Heap`), an
emission holding a reference (`tagsRef`) into it.  Each Go `make map` +
copy loop is one fresh allocation holding the computed contents; the
routines never write to a previously existing cell. -/

/-- A store of tag maps; a reference is an index into `cells`. -/
structure Heap where
  cells : List TagMap

/-- Allocate a fresh tag map, returning its reference. -/
def Heap.alloc (h : Heap) (m : TagMap) : Nat × Heap :=
  (h.cells.length, Heap.mk (h.cells ++ [m]))

/-- Read a tag map by reference. -/
def Heap.read (h : Heap) (r : Nat) : TagMap := (h.cells[r]?).getD []

/-- Overwrite a tag map in place (used to model a caller mutating a tag
map after the routines return). -/
def Heap.write (h : Heap) (r : Nat) (m : TagMap) : Heap :=
  Heap.mk (h.cells.set r m)

/-- An emission whose tag map is a reference into the store. -/
structure EmissionH where
  measurement : String
  fields : Entry
  tagsRef : Nat

/-- Heap-instrumented `gatherInversestream`: the fresh `accTags` copy is
one allocation. -/
def gatherInversestreamH (tr : Nat) (status : Entry) (h : Heap) :
    (List EmissionH × Option String) × Heap :=
  match invCore (h.read tr) status with
  | Except.error err => (([], some err), h)
  | Except.ok e =>
    let a := h.alloc e.tags
    (([EmissionH.mk e.measurement e.fields a.1], none), a.2)

/-- Heap-instrumented `gatherUpsteam`. -/
def gatherUpsteamH (tr : Nat) (status : Entry) (h : Heap) :
    (List EmissionH × Option String) × Heap :=
  match upCore (h.read tr) status with
  | Except.error err => (([], some err), h)
  | Except.ok e =>
    let a := h.alloc e.tags
    (([EmissionH.mk e.measurement e.fields a.1], none), a.2)

/-- Heap-instrumented `gatherFrontstream`. -/
def gatherFrontstreamH (tr : Nat) (status : Entry) (h : Heap) :
    (List EmissionH × Option String) × Heap :=
  match frontCore (h.read tr) status with
  | Except.error err => (([], some err), h)
  | Except.ok e =>
    let a := h.alloc e.tags
    (([EmissionH.mk e.measurement e.fields a.1], none), a.2)

/-- Heap-instrumented dynamic-key loop of `gatherDownsteram`: each
secondary emission allocates its own fresh copy of the primary tags. -/
def downLoopH (accTags : TagMap) : List (String × GoVal) → Heap →
    (List EmissionH × Option String) × Heap
  | [], h => (([], none), h)
  | kv :: rest, h =>
    if hasPre "code-" kv.1 then
      match asObj kv.2 with
      | Except.error err => (([], some err), h)
      | Except.ok fs =>
        let a := h.alloc (upsert (copyTags accTags) "code" (strDrop kv.1 5))
        let r := downLoopH accTags rest a.2
        ((EmissionH.mk "dsc" fs a.1 :: r.1.1, r.1.2), r.2)
    else if hasPre "fbs-" kv.1 then
      match asObj kv.2 with
      | Except.error err => (([], some err), h)
      | Except.ok fs =>
        let a := h.alloc (upsert (copyTags accTags) "fbs" (strDrop kv.1 4))
        let r := downLoopH accTags rest a.2
        ((EmissionH.mk "fbs" fs a.1 :: r.1.1, r.1.2), r.2)
    else downLoopH accTags rest h

/-- Heap-instrumented `gatherDownsteram`: the primary `accTags` copy is
allocated first, the secondary copies during the loop; the primary
emission references the `accTags` cell. -/
def gatherDownsteramH (tr : Nat) (status : Entry) (h : Heap) :
    (List EmissionH × Option String) × Heap :=
  match downCore (h.read tr) status with
  | Except.error err => (([], some err), h)
  | Except.ok af =>
    let a := h.alloc af.1
    let r := downLoopH af.1 status a.2
    match r.1.2 with
    | some err => ((r.1.1, some err), r.2)
    | none => ((r.1.1 ++ [EmissionH.mk "downsteram" af.2 a.1], none), r.2)

/-- Heap-instrumented `runList`. -/
def runListH {α : Type}
    (f : α → Heap → (List EmissionH × Option String) × Heap) :
    List α → Heap → (List EmissionH × Option String) × Heap
  | [], h => (([], none), h)
  | x :: xs, h =>
    let r := f x h
    match r.1.2 with
    | some err => ((r.1.1, some err), r.2)
    | none =>
      let rest := runListH f xs r.2
      ((r.1.1 ++ rest.1.1, rest.1.2), rest.2)

/-- Heap-instrumented per-server mapping pass. -/
def mapServerH (tr : Nat) (doc : MgdStatus) (h : Heap) :
    (List EmissionH × Option String) × Heap :=
  let rI := runListH (gatherInversestreamH tr) doc.inversestream h
  match rI.1.2 with
  | some err => ((rI.1.1, some err), rI.2)
  | none =>
    let rU := runListH (gatherUpsteamH tr) doc.upstream rI.2
    match rU.1.2 with
    | some err => ((rI.1.1 ++ rU.1.1, some err), rU.2)
    | none =>
      let rD := runListH (gatherDownsteramH tr) doc.downsteram rU.2
      match rD.1.2 with
      | some err => ((rI.1.1 ++ rU.1.1 ++ rD.1.1, some err), rD.2)
      | none =>
        let rF := runListH (gatherFrontstreamH tr) doc.frontstream rD.2
        ((rI.1.1 ++ rU.1.1 ++ rD.1.1 ++ rF.1.1, rF.1.2), rF.2)

/-! ## Notions used in the statements -/

/-- Number of emissions under a given measurement name. -/
def countMeas (es : List Emission) (nm : String) : Nat :=
  (es.filter (fun e => e.measurement == nm)).length

/-- `h2` extends `h`: every existing cell is untouched, new cells are
appended. -/
def heapExtends (h h2 : Heap) : Prop := ∃ d, h2.cells = h.cells ++ d

/-- The tag-map references of a run's emissions are pairwise distinct
and all freshly allocated during the run. -/
def refsFresh (h h2 : Heap) (es : List EmissionH) : Prop :=
  (es.map EmissionH.tagsRef).Nodup ∧
  ∀ e ∈ es, h.cells.length ≤ e.tagsRef ∧ e.tagsRef < h2.cells.length

/-- The minute-suffixed field names of an Inversestream emission
(including `sw`, which is fed from the `fifteen-minute` source value). -/
def invMinuteFields : List String :=
  ["one-minute", "five-minute", "fifteen-minute", "sw",
   "sw-one-minute", "sw-five-minute", "sw-fifteen-minute"]

/-- The minute-suffixed field names of the other three sections. -/
def stdMinuteFields : List String :=
  ["one-minute", "five-minute", "fifteen-minute"]

/-- The source key a minute-suffixed field is read from (`sw` reads
`fifteen-minute`; every other field reads its own key). -/
def minuteSource (fld : String) : String :=
  if fld == "sw" then "fifteen-minute" else fld

/-- The secondary emission contributed by one raw key of a Downstream
entry, given the primary tags: `"code-"` keys yield a `"dsc"` emission,
`"fbs-"` keys an `"fbs"` emission, other keys nothing. -/
def secondaryOf (primaryTags : TagMap) (kv : String × GoVal) :
    Option Emission :=
  if hasPre "code-" kv.1 then
    some (Emission.mk "dsc" (getObj kv.2)
      (upsert primaryTags "code" (strDrop kv.1 5)))
  else if hasPre "fbs-" kv.1 then
    some (Emission.mk "fbs" (getObj kv.2)
      (upsert primaryTags "fbs" (strDrop kv.1 4)))
  else none

/-! ## Concrete sample data (used by witnesses and counterexamples) -/

/-- A well-formed Inversestream entry; the minute values `12.9`
exercise truncation. -/
def sampleInvEntry : Entry :=
  [("name", GoVal.str "i1"), ("ok", GoVal.bool true), ("jobs", GoVal.num 3),
   ("one-minute", GoVal.num (mkRat 129 10)), ("five-minute", GoVal.num (mkRat 129 10)),
   ("fifteen-minute", GoVal.num (mkRat 129 10)),
   ("sw-one-minute", GoVal.num 1), ("sw-five-minute", GoVal.num 2),
   ("sw-fifteen-minute", GoVal.num 3)]

/-- A fully populated `tr-percentiles` object. -/
def samplePcts : List (String × GoVal) :=
  [("50", GoVal.num 5), ("75", GoVal.num 7), ("95", GoVal.num 9),
   ("99", GoVal.num 10), ("999", GoVal.num 11)]

/-- A well-formed Upstream entry. -/
def sampleUpEntry : Entry :=
  [("name", GoVal.str "u1"), ("src", GoVal.str "s1"), ("ok", GoVal.bool true),
   ("jobs", GoVal.num 1), ("fail", GoVal.num 0), ("idling", GoVal.num 0),
   ("success", GoVal.num 2), ("current", GoVal.num 1),
   ("one-minute", GoVal.num (mkRat 129 10)), ("five-minute", GoVal.num 2),
   ("fifteen-minute", GoVal.num 3), ("tr-min", GoVal.num 0),
   ("tr-max", GoVal.num 9), ("tr-percentiles", GoVal.obj samplePcts)]

/-- An Upstream entry whose `tr-percentiles` object is empty (every
percentile key absent). -/
def emptyPctsUpEntry : Entry :=
  [("name", GoVal.str "u2"), ("src", GoVal.str "s2"), ("ok", GoVal.bool true),
   ("jobs", GoVal.num 1), ("fail", GoVal.num 0), ("idling", GoVal.num 0),
   ("success", GoVal.num 2), ("current", GoVal.num 1),
   ("one-minute", GoVal.num 1), ("five-minute", GoVal.num 2),
   ("fifteen-minute", GoVal.num 3), ("tr-min", GoVal.num 0),
   ("tr-max", GoVal.num 9), ("tr-percentiles", GoVal.obj [])]

/-- A well-formed Frontstream entry. -/
def sampleFrontEntry : Entry :=
  [("name", GoVal.str "f1"), ("ok", GoVal.bool true), ("jobs", GoVal.num 1),
   ("fail", GoVal.num 0), ("one-minute", GoVal.num (mkRat 129 10)),
   ("five-minute", GoVal.num 2), ("fifteen-minute", GoVal.num 3)]

/-- A well-formed Downstream entry with two `code-` keys, one `fbs-`
key and one unrecognized key. -/
def sampleDownEntry : Entry :=
  [("name", GoVal.str "d1"), ("app", GoVal.str "a1"), ("ok", GoVal.bool true),
   ("jobs", GoVal.num 1), ("fail", GoVal.num 0), ("success", GoVal.num 2),
   ("current", GoVal.num 1), ("one-minute", GoVal.num (mkRat 129 10)),
   ("five-minute", GoVal.num 2), ("fifteen-minute", GoVal.num 3),
   ("tr-min", GoVal.num 0), ("tr-max", GoVal.num 9),
   ("tr-percentiles", GoVal.obj samplePcts),
   ("code-200", GoVal.obj [("hits", GoVal.num 4)]),
   ("code-404", GoVal.obj [("hits", GoVal.num 1)]),
   ("fbs-x", GoVal.obj [("n", GoVal.num 2)]),
   ("other", GoVal.num 0)]

/-- A Downstream entry lacking the expected `"name"` key. -/
def badDownEntry : Entry :=
  [("app", GoVal.str "a2"), ("ok", GoVal.bool true),
   ("jobs", GoVal.num 1), ("fail", GoVal.num 0), ("success", GoVal.num 2),
   ("current", GoVal.num 1), ("one-minute", GoVal.num 1),
   ("five-minute", GoVal.num 2), ("fifteen-minute", GoVal.num 3),
   ("tr-min", GoVal.num 0), ("tr-max", GoVal.num 9),
   ("tr-percentiles", GoVal.obj samplePcts)]

/-- A fully well-formed status document, one entry per section. -/
def sampleDoc : MgdStatus :=
  { server := ServerStatus.mk "srv" 0,
    downsteram := [sampleDownEntry],
    upstream := [sampleUpEntry],
    inversestream := [sampleInvEntry],
    frontstream := [sampleFrontEntry] }

/-- A document whose Downstream section has a well-formed first entry
and a second entry lacking `"name"`. -/
def partialDoc : MgdStatus :=
  { server := ServerStatus.mk "srv" 0,
    downsteram := [sampleDownEntry, badDownEntry],
    upstream := [],
    inversestream := [],
    frontstream := [] }

/-- An empty status document. -/
def emptyDoc : MgdStatus :=
  { server := ServerStatus.mk "srv" 0,
    downsteram := [], upstream := [], inversestream := [], frontstream := [] }

/-- A fetch collaborator that fails with a transport error on every
address. -/
def fetchRefused : String → Except String MgdStatus :=
  fun _ => Except.error "connection refused"

/-- A fetch collaborator that returns the empty document on every
address. -/
def fetchEmpty : String → Except String MgdStatus :=
  fun _ => Except.ok emptyDoc

/-- A fetch collaborator that returns the sample document on every
address. -/
def fetchSample : String → Except String MgdStatus :=
  fun _ => Except.ok sampleDoc

/-- A fetch collaborator that returns the document whose Downstream
section contains a failing entry. -/
def fetchPartial : String → Except String MgdStatus :=
  fun _ => Except.ok partialDoc

/-- A one-cell store holding the base (`"server"`) tag map. -/
def sampleHeap : Heap := Heap.mk [[("server", "s")]]

/-! ## Basic lemmas -/

theorem bind_ok_elim {ε α β : Type} {x : Except ε α} {f : α → Except ε β}
    {b : β} (h : (x >>= f) = Except.ok b) :
    ∃ a, x = Except.ok a ∧ f a = Except.ok b := by
  cases x with
  | error e => exact absurd h (by simp [Bind.bind, Except.bind])
  | ok a => exact ⟨a, rfl, h⟩

theorem pure_ok_elim {ε α : Type} {a b : α}
    (h : (pure a : Except ε α) = Except.ok b) : a = b :=
  Except.ok.inj h

theorem asFloat_num {v : GoVal} {q : ℚ} (h : asFloat v = Except.ok q) :
    v = GoVal.num q := by
  cases v <;> simp [asFloat] at h <;> simp [h]

theorem asString_str {v : GoVal} {s : String}
    (h : asString v = Except.ok s) : v = GoVal.str s := by
  cases v <;> simp [asString] at h <;> simp [h]

theorem asObj_obj {v : GoVal} {fs : List (String × GoVal)}
    (h : asObj v = Except.ok fs) : v = GoVal.obj fs := by
  cases v <;> simp [asObj] at h <;> simp [h]

/-! ## Success characterizations of the four cores -/

theorem invCore_ok_elim {t : TagMap} {s : Entry} {e : Emission}
    (h : invCore t s = Except.ok e) :
    ∃ q1 q5 q15 qsw s1 s5 s15 nm,
      mapGet s "one-minute" = GoVal.num q1 ∧
      mapGet s "five-minute" = GoVal.num q5 ∧
      mapGet s "fifteen-minute" = GoVal.num q15 ∧
      mapGet s "fifteen-minute" = GoVal.num qsw ∧
      mapGet s "sw-one-minute" = GoVal.num s1 ∧
      mapGet s "sw-five-minute" = GoVal.num s5 ∧
      mapGet s "sw-fifteen-minute" = GoVal.num s15 ∧
      mapGet s "name" = GoVal.str nm ∧
      e = Emission.mk "inversestream" (invFields s q1 q5 q15 qsw s1 s5 s15)
            (upsert (copyTags t) "name" nm) := by
  unfold invCore at h
  obtain ⟨q1, h1, h⟩ := bind_ok_elim h
  obtain ⟨q5, h5, h⟩ := bind_ok_elim h
  obtain ⟨q15, h15, h⟩ := bind_ok_elim h
  obtain ⟨qsw, hsw, h⟩ := bind_ok_elim h
  obtain ⟨s1, hs1, h⟩ := bind_ok_elim h
  obtain ⟨s5, hs5, h⟩ := bind_ok_elim h
  obtain ⟨s15, hs15, h⟩ := bind_ok_elim h
  obtain ⟨nm, hnm, h⟩ := bind_ok_elim h
  exact ⟨q1, q5, q15, qsw, s1, s5, s15, nm, asFloat_num h1, asFloat_num h5,
    asFloat_num h15, asFloat_num hsw, asFloat_num hs1, asFloat_num hs5,
    asFloat_num hs15, asString_str hnm, (pure_ok_elim h).symm⟩

theorem upCore_ok_elim {t : TagMap} {s : Entry} {e : Emission}
    (h : upCore t s = Except.ok e) :
    ∃ nm src q1 q5 q15 pcts,
      mapGet s "name" = GoVal.str nm ∧
      mapGet s "src" = GoVal.str src ∧
      mapGet s "one-minute" = GoVal.num q1 ∧
      mapGet s "five-minute" = GoVal.num q5 ∧
      mapGet s "fifteen-minute" = GoVal.num q15 ∧
      mapGet s "tr-percentiles" = GoVal.obj pcts ∧
      e = Emission.mk "upstream" (pctsInserts (upFields0 s q1 q5 q15) pcts)
            (upsert (upsert (copyTags t) "name" nm) "src" src) := by
  unfold upCore at h
  obtain ⟨nm, hnm, h⟩ := bind_ok_elim h
  obtain ⟨src, hsrc, h⟩ := bind_ok_elim h
  obtain ⟨q1, h1, h⟩ := bind_ok_elim h
  obtain ⟨q5, h5, h⟩ := bind_ok_elim h
  obtain ⟨q15, h15, h⟩ := bind_ok_elim h
  obtain ⟨pcts, hp, h⟩ := bind_ok_elim h
  exact ⟨nm, src, q1, q5, q15, pcts, asString_str hnm, asString_str hsrc,
    asFloat_num h1, asFloat_num h5, asFloat_num h15, asObj_obj hp,
    (pure_ok_elim h).symm⟩

theorem frontCore_ok_elim {t : TagMap} {s : Entry} {e : Emission}
    (h : frontCore t s = Except.ok e) :
    ∃ q1 q5 q15 nm,
      mapGet s "one-minute" = GoVal.num q1 ∧
      mapGet s "five-minute" = GoVal.num q5 ∧
      mapGet s "fifteen-minute" = GoVal.num q15 ∧
      mapGet s "name" = GoVal.str nm ∧
      e = Emission.mk "frontstream" (frontFields s q1 q5 q15)
            (upsert (copyTags t) "name" nm) := by
  unfold frontCore at h
  obtain ⟨q1, h1, h⟩ := bind_ok_elim h
  obtain ⟨q5, h5, h⟩ := bind_ok_elim h
  obtain ⟨q15, h15, h⟩ := bind_ok_elim h
  obtain ⟨nm, hnm, h⟩ := bind_ok_elim h
  exact ⟨q1, q5, q15, nm, asFloat_num h1, asFloat_num h5, asFloat_num h15,
    asString_str hnm, (pure_ok_elim h).symm⟩

theorem downCore_ok_elim {t : TagMap} {s : Entry} {af : TagMap × Entry}
    (h : downCore t s = Except.ok af) :
    ∃ nm app q1 q5 q15 pcts,
      mapGet s "name" = GoVal.str nm ∧
      mapGet s "app" = GoVal.str app ∧
      mapGet s "one-minute" = GoVal.num q1 ∧
      mapGet s "five-minute" = GoVal.num q5 ∧
      mapGet s "fifteen-minute" = GoVal.num q15 ∧
      mapGet s "tr-percentiles" = GoVal.obj pcts ∧
      af = (upsert (upsert (copyTags t) "name" nm) "app" app,
            pctsInserts (downFields0 s q1 q5 q15) pcts) := by
  unfold downCore at h
  obtain ⟨nm, hnm, h⟩ := bind_ok_elim h
  obtain ⟨app, happ, h⟩ := bind_ok_elim h
  obtain ⟨q1, h1, h⟩ := bind_ok_elim h
  obtain ⟨q5, h5, h⟩ := bind_ok_elim h
  obtain ⟨q15, h15, h⟩ := bind_ok_elim h
  obtain ⟨pcts, hp, h⟩ := bind_ok_elim h
  exact ⟨nm, app, q1, q5, q15, pcts, asString_str hnm, asString_str happ,
    asFloat_num h1, asFloat_num h5, asFloat_num h15, asObj_obj hp,
    (pure_ok_elim h).symm⟩

/-! ## Structural lemmas about the gather routines -/

theorem gatherInversestream_ok {t : TagMap} {s : Entry} {es : List Emission}
    (h : gatherInversestream t s = (es, none)) :
    ∃ e, invCore t s = Except.ok e ∧ es = [e] := by
  unfold gatherInversestream at h
  cases hc : invCore t s with
  | error err => rw [hc] at h; simp at h
  | ok e => rw [hc] at h; exact ⟨e, rfl, by simp at h; exact h.symm⟩

theorem gatherUpsteam_ok {t : TagMap} {s : Entry} {es : List Emission}
    (h : gatherUpsteam t s = (es, none)) :
    ∃ e, upCore t s = Except.ok e ∧ es = [e] := by
  unfold gatherUpsteam at h
  cases hc : upCore t s with
  | error err => rw [hc] at h; simp at h
  | ok e => rw [hc] at h; exact ⟨e, rfl, by simp at h; exact h.symm⟩

theorem gatherFrontstream_ok {t : TagMap} {s : Entry} {es : List Emission}
    (h : gatherFrontstream t s = (es, none)) :
    ∃ e, frontCore t s = Except.ok e ∧ es = [e] := by
  unfold gatherFrontstream at h
  cases hc : frontCore t s with
  | error err => rw [hc] at h; simp at h
  | ok e => rw [hc] at h; exact ⟨e, rfl, by simp at h; exact h.symm⟩

theorem downLoop_ok {a : TagMap} {l : List (String × GoVal)}
    {es : List Emission} (h : downLoop a l = (es, none)) :
    es = l.filterMap (secondaryOf a) ∧
    ∀ kv ∈ l,
      (hasPre "code-" kv.1 = true ∨ hasPre "fbs-" kv.1 = true) →
      ∃ fs, kv.2 = GoVal.obj fs := by
  induction l generalizing es with
  | nil =>
    simp [downLoop] at h
    simp [← h]
  | cons kv rest ih =>
    by_cases hc : hasPre "code-" kv.1 = true
    · simp only [downLoop, hc, if_true] at h
      cases ho : asObj kv.2 with
      | error err => rw [ho] at h; simp at h
      | ok fs =>
        rw [ho] at h
        simp only [Prod.mk.injEq] at h
        have hrest : downLoop a rest = ((downLoop a rest).1, none) := by
          rw [← h.2]
        obtain ⟨ih1, ih2⟩ := ih hrest
        constructor
        · rw [← h.1, ih1]
          simp [List.filterMap_cons, secondaryOf, hc, asObj_obj ho, getObj,
            copyTags]
        · intro kv2 hkv2 hpref
          rcases List.mem_cons.mp hkv2 with heq | hmem
          · exact ⟨fs, by rw [heq]; exact asObj_obj ho⟩
          · exact ih2 kv2 hmem hpref
    · by_cases hf : hasPre "fbs-" kv.1 = true
      · simp only [downLoop, hc, hf, if_true, if_false, Bool.false_eq_true]
          at h
        cases ho : asObj kv.2 with
        | error err => rw [ho] at h; simp at h
        | ok fs =>
          rw [ho] at h
          simp only [Prod.mk.injEq] at h
          have hrest : downLoop a rest = ((downLoop a rest).1, none) := by
            rw [← h.2]
          obtain ⟨ih1, ih2⟩ := ih hrest
          constructor
          · rw [← h.1, ih1]
            simp [List.filterMap_cons, secondaryOf, hc, hf, asObj_obj ho,
              getObj, copyTags]
          · intro kv2 hkv2 hpref
            rcases List.mem_cons.mp hkv2 with heq | hmem
            · exact ⟨fs, by rw [heq]; exact asObj_obj ho⟩
            · exact ih2 kv2 hmem hpref
      · simp only [downLoop, hc, hf, if_false, Bool.false_eq_true] at h
        obtain ⟨ih1, ih2⟩ := ih h
        constructor
        · rw [ih1]
          simp [List.filterMap_cons, secondaryOf, hc, hf]
        · intro kv2 hkv2 hpref
          rcases List.mem_cons.mp hkv2 with heq | hmem
          · rw [heq] at hpref
            rcases hpref with hp | hp
            · exact absurd hp hc
            · exact absurd hp hf
          · exact ih2 kv2 hmem hpref

theorem gatherDownsteram_ok {t : TagMap} {s : Entry} {es : List Emission}
    (h : gatherDownsteram t s = (es, none)) :
    ∃ accTags fields,
      downCore t s = Except.ok (accTags, fields) ∧
      es = s.filterMap (secondaryOf accTags) ++
        [Emission.mk "downsteram" fields accTags] ∧
      ∀ kv ∈ s,
        (hasPre "code-" kv.1 = true ∨ hasPre "fbs-" kv.1 = true) →
        ∃ fs, kv.2 = GoVal.obj fs := by
  unfold gatherDownsteram at h
  cases hd : downCore t s with
  | error err => rw [hd] at h; simp at h
  | ok af =>
    obtain ⟨accTags, fields⟩ := af
    rw [hd] at h
    dsimp only at h
    cases hl : (downLoop accTags s).2 with
    | some err => rw [hl] at h; simp at h
    | none =>
      rw [hl] at h
      simp only [Prod.mk.injEq] at h
      have hloop : downLoop accTags s = ((downLoop accTags s).1, none) := by
        rw [← hl]
      obtain ⟨hm, hobj⟩ := downLoop_ok hloop
      exact ⟨accTags, fields, rfl, by rw [← h.1, hm], hobj⟩

/-! ## Lemmas about the section loops and the per-server pass -/

theorem runList_ok {α : Type} {f : α → List Emission × Option String}
    {l : List α} {es : List Emission} (h : runList f l = (es, none)) :
    (∀ x ∈ l, (f x).2 = none) ∧
    es = (l.map (fun x => (f x).1)).flatten := by
  induction l generalizing es with
  | nil =>
    simp [runList] at h
    simp [← h]
  | cons x xs ih =>
    simp only [runList] at h
    cases hx : (f x).2 with
    | some e => rw [hx] at h; simp at h
    | none =>
      rw [hx] at h
      simp only [Prod.mk.injEq] at h
      have hrest : runList f xs = ((runList f xs).1, none) := by
        rw [← h.2]
      obtain ⟨ih1, ih2⟩ := ih hrest
      refine ⟨?_, ?_⟩
      · intro y hy
        rcases List.mem_cons.mp hy with heq | hmem
        · rw [heq]; exact hx
        · exact ih1 y hmem
      · rw [← h.1, ih2]; simp

theorem runList_fail {α : Type} {f : α → List Emission × Option String}
    {pre : List α} {bad : α} {e : String} (post : List α)
    (hpre : ∀ x ∈ pre, (f x).2 = none) (hbad : (f bad).2 = some e) :
    runList f (pre ++ bad :: post) =
      ((pre.map (fun x => (f x).1)).flatten ++ (f bad).1, some e) := by
  induction pre with
  | nil => simp [runList, hbad]
  | cons x xs ih =>
    have hx : (f x).2 = none := hpre x (by simp)
    have ihx := ih (fun y hy => hpre y (by simp [hy]))
    simp [runList, List.append_eq, hx, ihx]

theorem mapServer_ok {t : TagMap} {doc : MgdStatus} {es : List Emission}
    (h : mapServer t doc = (es, none)) :
    ∃ esI esU esD esF,
      runList (gatherInversestream t) doc.inversestream = (esI, none) ∧
      runList (gatherUpsteam t) doc.upstream = (esU, none) ∧
      runList (gatherDownsteram t) doc.downsteram = (esD, none) ∧
      runList (gatherFrontstream t) doc.frontstream = (esF, none) ∧
      es = esI ++ esU ++ esD ++ esF := by
  unfold mapServer at h
  dsimp only at h
  cases hI : (runList (gatherInversestream t) doc.inversestream).2 with
  | some err => rw [hI] at h; simp at h
  | none =>
    rw [hI] at h
    cases hU : (runList (gatherUpsteam t) doc.upstream).2 with
    | some err => rw [hU] at h; simp at h
    | none =>
      rw [hU] at h
      cases hD : (runList (gatherDownsteram t) doc.downsteram).2 with
      | some err => rw [hD] at h; simp at h
      | none =>
        rw [hD] at h
        cases hF : (runList (gatherFrontstream t) doc.frontstream).2 with
        | some err => rw [hF] at h; simp at h
        | none =>
          rw [hF] at h
          simp only [Prod.mk.injEq] at h
          refine ⟨_, _, _, _, ?_, ?_, ?_, ?_, h.1.symm⟩
          · rw [← hI]
          · rw [← hU]
          · rw [← hD]
          · rw [← hF]

/-! ## Helper lemmas for field lookups -/

theorem secondaryOf_measurement {a : TagMap} {kv : String × GoVal}
    {e : Emission} (h : secondaryOf a kv = some e) :
    e.measurement = "dsc" ∨ e.measurement = "fbs" := by
  unfold secondaryOf at h
  by_cases hc : hasPre "code-" kv.1 = true
  · simp only [hc, if_true] at h
    left; rw [← Option.some.inj h]
  · by_cases hf : hasPre "fbs-" kv.1 = true
    · simp only [hc, hf, if_true, if_false, Bool.false_eq_true] at h
      right; rw [← Option.some.inj h]
    · simp [hc, hf] at h

theorem lookup_invFields_sw (s : Entry) (q1 q5 q15 qsw s1 s5 s15 : ℚ) :
    lookupKey (invFields s q1 q5 q15 qsw s1 s5 s15) "sw" =
      some (GoVal.int (goTrunc qsw)) := rfl

theorem lookup_invFields_fifteen (s : Entry) (q1 q5 q15 qsw s1 s5 s15 : ℚ) :
    lookupKey (invFields s q1 q5 q15 qsw s1 s5 s15) "fifteen-minute" =
      some (GoVal.int (goTrunc q15)) := rfl

/-! ## C1, C10, C8 -/

/-- C1: for a successfully processed Downstream entry, each raw key with
the `"code-"` prefix yields exactly one `"dsc"` emission whose tags are
the primary tags plus the stripped code and whose field set is exactly
the key's nested mapping; each `"fbs-"` key likewise yields one `"fbs"`
emission; any other key yields no secondary emission.  The emissions of
the entry are exactly the secondary ones (one per recognized key, in
key order) followed by the primary one. -/
theorem c1_downstream_secondary_emissions {tags : TagMap} {status : Entry}
    {es : List Emission} (h : gatherDownsteram tags status = (es, none)) :
    ∃ accTags fields,
      downCore tags status = Except.ok (accTags, fields) ∧
      es = status.filterMap (secondaryOf accTags) ++
        [Emission.mk "downsteram" fields accTags] ∧
      (∀ kv ∈ status, hasPre "code-" kv.1 = true →
        ∃ fs, kv.2 = GoVal.obj fs ∧
          secondaryOf accTags kv = some (Emission.mk "dsc" fs
            (upsert accTags "code" (strDrop kv.1 5)))) ∧
      (∀ kv ∈ status, hasPre "fbs-" kv.1 = true →
        hasPre "code-" kv.1 = false →
        ∃ fs, kv.2 = GoVal.obj fs ∧
          secondaryOf accTags kv = some (Emission.mk "fbs" fs
            (upsert accTags "fbs" (strDrop kv.1 4)))) ∧
      (∀ kv : String × GoVal, hasPre "code-" kv.1 = false →
        hasPre "fbs-" kv.1 = false → secondaryOf accTags kv = none) := by
  obtain ⟨accTags, fields, hd, hm, hobj⟩ := gatherDownsteram_ok h
  refine ⟨accTags, fields, hd, hm, ?_, ?_, ?_⟩
  · intro kv hkv hc
    obtain ⟨fs, hfs⟩ := hobj kv hkv (Or.inl hc)
    exact ⟨fs, hfs, by simp [secondaryOf, hc, hfs, getObj]⟩
  · intro kv hkv hf hc
    obtain ⟨fs, hfs⟩ := hobj kv hkv (Or.inr hf)
    exact ⟨fs, hfs, by simp [secondaryOf, hc, hf, hfs, getObj]⟩
  · intro kv hc hf
    simp [secondaryOf, hc, hf]

/-- Witness for C1 at a concrete Downstream entry with keys `code-200`,
`code-404`, `fbs-x` and an unrecognized key. -/
theorem c1_witness :
    gatherDownsteram [("server", "s")] sampleDownEntry =
      ((gatherDownsteram [("server", "s")] sampleDownEntry).1, none) ∧
    (∃ accTags fields,
      downCore [("server", "s")] sampleDownEntry =
        Except.ok (accTags, fields) ∧
      (gatherDownsteram [("server", "s")] sampleDownEntry).1 =
        sampleDownEntry.filterMap (secondaryOf accTags) ++
        [Emission.mk "downsteram" fields accTags] ∧
      (∀ kv ∈ sampleDownEntry, hasPre "code-" kv.1 = true →
        ∃ fs, kv.2 = GoVal.obj fs ∧
          secondaryOf accTags kv = some (Emission.mk "dsc" fs
            (upsert accTags "code" (strDrop kv.1 5)))) ∧
      (∀ kv ∈ sampleDownEntry, hasPre "fbs-" kv.1 = true →
        hasPre "code-" kv.1 = false →
        ∃ fs, kv.2 = GoVal.obj fs ∧
          secondaryOf accTags kv = some (Emission.mk "fbs" fs
            (upsert accTags "fbs" (strDrop kv.1 4)))) ∧
      (∀ kv : String × GoVal, hasPre "code-" kv.1 = false →
        hasPre "fbs-" kv.1 = false → secondaryOf accTags kv = none)) :=
  ⟨by rfl, c1_downstream_secondary_emissions (by rfl)⟩

/-- C10: for a successfully processed Downstream entry, every secondary
(`"dsc"`/`"fbs"`) emission is delivered to the accumulator before the
entry's primary `"downsteram"` emission, which comes last. -/
theorem c10_secondaries_before_primary {tags : TagMap} {status : Entry}
    {es : List Emission} (h : gatherDownsteram tags status = (es, none)) :
    ∃ sec p, es = sec ++ [p] ∧ p.measurement = "downsteram" ∧
      ∀ e ∈ sec, e.measurement = "dsc" ∨ e.measurement = "fbs" := by
  obtain ⟨accTags, fields, _, hm, _⟩ := gatherDownsteram_ok h
  refine ⟨status.filterMap (secondaryOf accTags),
    Emission.mk "downsteram" fields accTags, hm, rfl, ?_⟩
  intro e he
  obtain ⟨kv, _, hkv⟩ := List.mem_filterMap.mp he
  exact secondaryOf_measurement hkv

/-- Witness for C10 at the same concrete Downstream entry. -/
theorem c10_witness :
    gatherDownsteram [("server", "s")] sampleDownEntry =
      ((gatherDownsteram [("server", "s")] sampleDownEntry).1, none) ∧
    (∃ sec p, (gatherDownsteram [("server", "s")] sampleDownEntry).1 =
        sec ++ [p] ∧ p.measurement = "downsteram" ∧
      ∀ e ∈ sec, e.measurement = "dsc" ∨ e.measurement = "fbs") :=
  ⟨by rfl, @c10_secondaries_before_primary [("server", "s")] sampleDownEntry
    ((gatherDownsteram [("server", "s")] sampleDownEntry).1) (by rfl)⟩

/-- C8: for a successfully processed Inversestream entry, the emitted
`"sw"` field equals the emitted `"fifteen-minute"` field, both the
truncation of the same source `"fifteen-minute"` value. -/
theorem c8_sw_equals_fifteen_minute {tags : TagMap} {status : Entry}
    {es : List Emission} (h : gatherInversestream tags status = (es, none)) :
    ∃ e q, es = [e] ∧ mapGet status "fifteen-minute" = GoVal.num q ∧
      lookupKey e.fields "sw" = some (GoVal.int (goTrunc q)) ∧
      lookupKey e.fields "fifteen-minute" = some (GoVal.int (goTrunc q)) ∧
      lookupKey e.fields "sw" = lookupKey e.fields "fifteen-minute" := by
  obtain ⟨e, hc, hes⟩ := gatherInversestream_ok h
  obtain ⟨q1, q5, q15, qsw, s1, s5, s15, nm, _, _, h15, hsw, _, _, _, _, he⟩ :=
    invCore_ok_elim hc
  have hq : qsw = q15 := by
    rw [h15] at hsw
    exact (GoVal.num.inj hsw).symm
  refine ⟨e, q15, hes, h15, ?_, ?_, ?_⟩
  · rw [he, lookup_invFields_sw, hq]
  · rw [he, lookup_invFields_fifteen]
  · rw [he, lookup_invFields_sw, lookup_invFields_fifteen, hq]

/-- Witness for C8 at a concrete Inversestream entry whose
`fifteen-minute` value is `12.9`. -/
theorem c8_witness :
    gatherInversestream [("server", "s")] sampleInvEntry =
      ((gatherInversestream [("server", "s")] sampleInvEntry).1, none) ∧
    (∃ e q, (gatherInversestream [("server", "s")] sampleInvEntry).1 = [e] ∧
      mapGet sampleInvEntry "fifteen-minute" = GoVal.num q ∧
      lookupKey e.fields "sw" = some (GoVal.int (goTrunc q)) ∧
      lookupKey e.fields "fifteen-minute" = some (GoVal.int (goTrunc q)) ∧
      lookupKey e.fields "sw" = lookupKey e.fields "fifteen-minute") :=
  ⟨by rfl, @c8_sw_equals_fifteen_minute [("server", "s")] sampleInvEntry
    ((gatherInversestream [("server", "s")] sampleInvEntry).1) (by rfl)⟩

theorem pctsInserts_up_eq (status : Entry) (q1 q5 q15 : ℚ)
    (pcts : List (String × GoVal)) :
    pctsInserts (upFields0 status q1 q5 q15) pcts =
      upFields0 status q1 q5 q15 ++
      [("tr-50", mapGet pcts "50"), ("tr-75", mapGet pcts "75"),
       ("tr-95", mapGet pcts "95"), ("tr-99", mapGet pcts "99"),
       ("tr-999", mapGet pcts "999")] := by
  simp [pctsInserts, upFields0, upsert]

theorem pctsInserts_down_eq (status : Entry) (q1 q5 q15 : ℚ)
    (pcts : List (String × GoVal)) :
    pctsInserts (downFields0 status q1 q5 q15) pcts =
      downFields0 status q1 q5 q15 ++
      [("tr-50", mapGet pcts "50"), ("tr-75", mapGet pcts "75"),
       ("tr-95", mapGet pcts "95"), ("tr-99", mapGet pcts "99"),
       ("tr-999", mapGet pcts "999")] := by
  simp [pctsInserts, downFields0, upsert]

/-! ## C2: minute-suffixed fields are truncated -/

theorem mapGet_null_of_absent {m : List (String × GoVal)} {k : String}
    (h : lookupKey m k = none) : mapGet m k = GoVal.null := by
  unfold lookupKey at h
  unfold mapGet
  cases hf : m.find? (fun kv => kv.1 == k) with
  | some kv => rw [hf] at h; simp at h
  | none => rfl

/-- C2: in every section, every minute-suffixed field (including the
`sw`/`sw-*` fields of Inversestream) is emitted as the integer
truncation toward zero of the source floating-point value, e.g. a
source value `12.9` (= `mkRat 129 10`) is emitted as `12`. -/
theorem c2_minute_fields_truncated :
    (∀ tags status es, gatherInversestream tags status = (es, none) →
      ∀ e ∈ es, ∀ fld ∈ invMinuteFields, ∃ q,
        mapGet status (minuteSource fld) = GoVal.num q ∧
        lookupKey e.fields fld = some (GoVal.int (goTrunc q))) ∧
    (∀ tags status es, gatherUpsteam tags status = (es, none) →
      ∀ e ∈ es, ∀ fld ∈ stdMinuteFields, ∃ q,
        mapGet status (minuteSource fld) = GoVal.num q ∧
        lookupKey e.fields fld = some (GoVal.int (goTrunc q))) ∧
    (∀ tags status es, gatherFrontstream tags status = (es, none) →
      ∀ e ∈ es, ∀ fld ∈ stdMinuteFields, ∃ q,
        mapGet status (minuteSource fld) = GoVal.num q ∧
        lookupKey e.fields fld = some (GoVal.int (goTrunc q))) ∧
    (∀ tags status es, gatherDownsteram tags status = (es, none) →
      ∃ sec p, es = sec ++ [p] ∧ ∀ fld ∈ stdMinuteFields, ∃ q,
        mapGet status (minuteSource fld) = GoVal.num q ∧
        lookupKey p.fields fld = some (GoVal.int (goTrunc q))) ∧
    goTrunc (mkRat 129 10) = 12 := by
  refine ⟨?_, ?_, ?_, ?_, by decide⟩
  · intro tags status es h e he fld hfld
    obtain ⟨e0, hc, hes⟩ := gatherInversestream_ok h
    rw [hes] at he
    have he0 : e = e0 := List.mem_singleton.mp he
    subst he0
    obtain ⟨q1, q5, q15, qsw, s1, s5, s15, nm, h1, h5, h15, hsw, hs1, hs5,
      hs15, hnm, hee⟩ := invCore_ok_elim hc
    subst hee
    simp only [invMinuteFields, List.mem_cons, List.not_mem_nil, or_false]
      at hfld
    rcases hfld with rfl | rfl | rfl | rfl | rfl | rfl | rfl
    · exact ⟨q1, h1, rfl⟩
    · exact ⟨q5, h5, rfl⟩
    · exact ⟨q15, h15, rfl⟩
    · exact ⟨qsw, hsw, rfl⟩
    · exact ⟨s1, hs1, rfl⟩
    · exact ⟨s5, hs5, rfl⟩
    · exact ⟨s15, hs15, rfl⟩
  · intro tags status es h e he fld hfld
    obtain ⟨e0, hc, hes⟩ := gatherUpsteam_ok h
    rw [hes] at he
    have he0 : e = e0 := List.mem_singleton.mp he
    subst he0
    obtain ⟨nm, src, q1, q5, q15, pcts, hnm, hsrc, h1, h5, h15, hp, hee⟩ :=
      upCore_ok_elim hc
    subst hee
    simp only [stdMinuteFields, List.mem_cons, List.not_mem_nil, or_false]
      at hfld
    rcases hfld with rfl | rfl | rfl
    · exact ⟨q1, h1, by rw [pctsInserts_up_eq]; rfl⟩
    · exact ⟨q5, h5, by rw [pctsInserts_up_eq]; rfl⟩
    · exact ⟨q15, h15, by rw [pctsInserts_up_eq]; rfl⟩
  · intro tags status es h e he fld hfld
    obtain ⟨e0, hc, hes⟩ := gatherFrontstream_ok h
    rw [hes] at he
    have he0 : e = e0 := List.mem_singleton.mp he
    subst he0
    obtain ⟨q1, q5, q15, nm, h1, h5, h15, hnm, hee⟩ := frontCore_ok_elim hc
    subst hee
    simp only [stdMinuteFields, List.mem_cons, List.not_mem_nil, or_false]
      at hfld
    rcases hfld with rfl | rfl | rfl
    · exact ⟨q1, h1, rfl⟩
    · exact ⟨q5, h5, rfl⟩
    · exact ⟨q15, h15, rfl⟩
  · intro tags status es h
    obtain ⟨accTags, fields, hd, hm, _⟩ := gatherDownsteram_ok h
    obtain ⟨nm, app, q1, q5, q15, pcts, hnm, happ, h1, h5, h15, hp, haf⟩ :=
      downCore_ok_elim hd
    have hfields : fields = pctsInserts (downFields0 status q1 q5 q15) pcts :=
      congrArg Prod.snd haf
    refine ⟨status.filterMap (secondaryOf accTags),
      Emission.mk "downsteram" fields accTags, hm, ?_⟩
    intro fld hfld
    simp only [stdMinuteFields, List.mem_cons, List.not_mem_nil, or_false]
      at hfld
    subst hfields
    rcases hfld with rfl | rfl | rfl
    · exact ⟨q1, h1, by rw [pctsInserts_down_eq]; rfl⟩
    · exact ⟨q5, h5, by rw [pctsInserts_down_eq]; rfl⟩
    · exact ⟨q15, h15, by rw [pctsInserts_down_eq]; rfl⟩

/-- Witness for C2: the Inversestream clause at a concrete entry whose
minute values are `12.9`; the truncation example `12.9 → 12` is part of
the theorem itself. -/
theorem c2_witness :
    gatherInversestream [("server", "s")] sampleInvEntry =
      ((gatherInversestream [("server", "s")] sampleInvEntry).1, none) ∧
    (∀ e ∈ (gatherInversestream [("server", "s")] sampleInvEntry).1,
      ∀ fld ∈ invMinuteFields, ∃ q,
        mapGet sampleInvEntry (minuteSource fld) = GoVal.num q ∧
        lookupKey e.fields fld = some (GoVal.int (goTrunc q))) :=
  ⟨by rfl, c2_minute_fields_truncated.1 [("server", "s")] sampleInvEntry
    ((gatherInversestream [("server", "s")] sampleInvEntry).1) (by rfl)⟩

/-! ## C4: percentile lookups under fixed keys -/

/-- C4 as written is refuted: for an entry whose `tr-percentiles`
object lacks a key, the corresponding `tr-` sub-field is NOT omitted
from the emission's field set; it is present, mapped to the `nil`
(`GoVal.null`) that the Go map read returns for the absent key. -/
theorem c4_counterexample :
    (gatherUpsteam [("server", "s")] emptyPctsUpEntry).2 = none ∧
    (gatherUpsteam [("server", "s")] emptyPctsUpEntry).1.map
      (fun e => lookupKey e.fields "tr-50") = [some GoVal.null] :=
  ⟨by rfl, by rfl⟩

/-- C4 (amended): in Upstream and Downstream entries the percentile
sub-fields `tr-50` … `tr-999` are looked up by the fixed string keys
`"50"`, `"75"`, `"95"`, `"99"`, `"999"` under the entry's asserted
`tr-percentiles` object; a key absent from that object yields the field
present in the emission's field set with a null value (not omitted). -/
theorem c4_percentiles_fixed_keys :
    (∀ tags status es, gatherUpsteam tags status = (es, none) →
      ∃ pcts, mapGet status "tr-percentiles" = GoVal.obj pcts ∧
        ∀ e ∈ es,
          lookupKey e.fields "tr-50" = some (mapGet pcts "50") ∧
          lookupKey e.fields "tr-75" = some (mapGet pcts "75") ∧
          lookupKey e.fields "tr-95" = some (mapGet pcts "95") ∧
          lookupKey e.fields "tr-99" = some (mapGet pcts "99") ∧
          lookupKey e.fields "tr-999" = some (mapGet pcts "999")) ∧
    (∀ tags status es, gatherDownsteram tags status = (es, none) →
      ∃ pcts sec p, mapGet status "tr-percentiles" = GoVal.obj pcts ∧
        es = sec ++ [p] ∧ p.measurement = "downsteram" ∧
        lookupKey p.fields "tr-50" = some (mapGet pcts "50") ∧
        lookupKey p.fields "tr-75" = some (mapGet pcts "75") ∧
        lookupKey p.fields "tr-95" = some (mapGet pcts "95") ∧
        lookupKey p.fields "tr-99" = some (mapGet pcts "99") ∧
        lookupKey p.fields "tr-999" = some (mapGet pcts "999")) ∧
    (∀ pcts : List (String × GoVal), ∀ k, lookupKey pcts k = none →
      mapGet pcts k = GoVal.null) := by
  refine ⟨?_, ?_, fun pcts k h => mapGet_null_of_absent h⟩
  · intro tags status es h
    obtain ⟨e0, hc, hes⟩ := gatherUpsteam_ok h
    obtain ⟨nm, src, q1, q5, q15, pcts, hnm, hsrc, h1, h5, h15, hp, hee⟩ :=
      upCore_ok_elim hc
    refine ⟨pcts, hp, ?_⟩
    intro e he
    rw [hes] at he
    have he0 : e = e0 := List.mem_singleton.mp he
    subst he0
    subst hee
    have hq := pctsInserts_up_eq status q1 q5 q15 pcts
    exact ⟨by rw [hq]; rfl, by rw [hq]; rfl, by rw [hq]; rfl,
      by rw [hq]; rfl, by rw [hq]; rfl⟩
  · intro tags status es h
    obtain ⟨accTags, fields, hd, hm, _⟩ := gatherDownsteram_ok h
    obtain ⟨nm, app, q1, q5, q15, pcts, hnm, happ, h1, h5, h15, hp, haf⟩ :=
      downCore_ok_elim hd
    have hfields : fields = pctsInserts (downFields0 status q1 q5 q15) pcts :=
      congrArg Prod.snd haf
    subst hfields
    have hq := pctsInserts_down_eq status q1 q5 q15 pcts
    exact ⟨pcts, status.filterMap (secondaryOf accTags),
      Emission.mk "downsteram" (pctsInserts (downFields0 status q1 q5 q15)
        pcts) accTags, hp, hm, rfl, by rw [hq]; rfl, by rw [hq]; rfl,
      by rw [hq]; rfl, by rw [hq]; rfl, by rw [hq]; rfl⟩

/-- Witness for (amended) C4's Upstream clause at a concrete entry. -/
theorem c4_witness :
    gatherUpsteam [("server", "s")] sampleUpEntry =
      ((gatherUpsteam [("server", "s")] sampleUpEntry).1, none) ∧
    (∃ pcts, mapGet sampleUpEntry "tr-percentiles" = GoVal.obj pcts ∧
      ∀ e ∈ (gatherUpsteam [("server", "s")] sampleUpEntry).1,
        lookupKey e.fields "tr-50" = some (mapGet pcts "50") ∧
        lookupKey e.fields "tr-75" = some (mapGet pcts "75") ∧
        lookupKey e.fields "tr-95" = some (mapGet pcts "95") ∧
        lookupKey e.fields "tr-99" = some (mapGet pcts "99") ∧
        lookupKey e.fields "tr-999" = some (mapGet pcts "999")) :=
  ⟨by rfl, c4_percentiles_fixed_keys.1 [("server", "s")] sampleUpEntry
    ((gatherUpsteam [("server", "s")] sampleUpEntry).1) (by rfl)⟩

/-! ## C3: exactly one primary emission per entry -/

theorem countMeas_append (es1 es2 : List Emission) (nm : String) :
    countMeas (es1 ++ es2) nm = countMeas es1 nm + countMeas es2 nm := by
  simp [countMeas, List.filter_append]

theorem countMeas_all {es : List Emission} {nm : String}
    (h : ∀ e ∈ es, e.measurement = nm) : countMeas es nm = es.length := by
  unfold countMeas
  rw [List.filter_eq_self.mpr]
  intro e he
  simp [h e he]

theorem countMeas_zero {es : List Emission} {nm : String}
    (h : ∀ e ∈ es, e.measurement ≠ nm) : countMeas es nm = 0 := by
  unfold countMeas
  have : es.filter (fun e => e.measurement == nm) = [] := by
    induction es with
    | nil => rfl
    | cons e es2 ih =>
      rw [List.filter_cons_of_neg (by simp [h e (by simp)]),
        ih fun e2 he2 => h e2 (by simp [he2])]
  rw [this]
  rfl

theorem runList_singles {α : Type} {f : α → List Emission × Option String}
    {nm : String}
    (hf : ∀ x es2, f x = (es2, none) → ∃ e, es2 = [e] ∧ e.measurement = nm)
    {l : List α} {es : List Emission} (h : runList f l = (es, none)) :
    es.length = l.length ∧ ∀ e ∈ es, e.measurement = nm := by
  induction l generalizing es with
  | nil =>
    simp [runList] at h
    simp [h]
  | cons x xs ih =>
    simp only [runList] at h
    cases hx : (f x).2 with
    | some e => rw [hx] at h; simp at h
    | none =>
      rw [hx] at h
      simp only [Prod.mk.injEq] at h
      have hxf : f x = ((f x).1, none) := by rw [← hx]
      obtain ⟨e, he1, he2⟩ := hf x (f x).1 hxf
      have hrest : runList f xs = ((runList f xs).1, none) := by rw [← h.2]
      obtain ⟨ih1, ih2⟩ := ih hrest
      constructor
      · rw [← h.1, he1]
        simp [ih1]
      · intro e2 he2m
        rw [← h.1] at he2m
        rcases List.mem_append.mp he2m with hm | hm
        · rw [he1] at hm
          rw [List.mem_singleton.mp hm]
          exact he2
        · exact ih2 e2 hm

theorem runDown_props {t : TagMap} {l : List Entry} {es : List Emission}
    (h : runList (gatherDownsteram t) l = (es, none)) :
    countMeas es "downsteram" = l.length ∧
    ∀ e ∈ es, e.measurement = "downsteram" ∨ e.measurement = "dsc" ∨
      e.measurement = "fbs" := by
  induction l generalizing es with
  | nil =>
    simp [runList] at h
    simp [h, countMeas]
  | cons x xs ih =>
    simp only [runList] at h
    cases hx : (gatherDownsteram t x).2 with
    | some e => rw [hx] at h; simp at h
    | none =>
      rw [hx] at h
      simp only [Prod.mk.injEq] at h
      have hxf : gatherDownsteram t x = ((gatherDownsteram t x).1, none) := by
        rw [← hx]
      obtain ⟨accTags, fields, _, hm, _⟩ := gatherDownsteram_ok hxf
      have hrest : runList (gatherDownsteram t) xs =
          ((runList (gatherDownsteram t) xs).1, none) := by rw [← h.2]
      obtain ⟨ih1, ih2⟩ := ih hrest
      have hsec : ∀ e ∈ x.filterMap (secondaryOf accTags),
          e.measurement = "dsc" ∨ e.measurement = "fbs" := by
        intro e he
        obtain ⟨kv, _, hkv⟩ := List.mem_filterMap.mp he
        exact secondaryOf_measurement hkv
      constructor
      · rw [← h.1, countMeas_append, ih1, hm, countMeas_append]
        have h0 : countMeas (x.filterMap (secondaryOf accTags))
            "downsteram" = 0 := by
          apply countMeas_zero
          intro e he
          rcases hsec e he with hd | hd <;> (rw [hd]; decide)
        have h1 : countMeas [Emission.mk "downsteram" fields accTags]
            "downsteram" = 1 := by
          simp [countMeas]
        rw [h0, h1]
        simp [Nat.add_comm]
      · intro e he
        rw [← h.1] at he
        rcases List.mem_append.mp he with hm2 | hm2
        · rw [hm] at hm2
          rcases List.mem_append.mp hm2 with hm3 | hm3
          · rcases hsec e hm3 with hd | hd
            · exact Or.inr (Or.inl hd)
            · exact Or.inr (Or.inr hd)
          · rw [List.mem_singleton.mp hm3]
            exact Or.inl rfl
        · exact ih2 e hm2

theorem inv_single {t : TagMap} : ∀ x es2,
    gatherInversestream t x = (es2, none) →
    ∃ e, es2 = [e] ∧ e.measurement = "inversestream" := by
  intro x es2 hx
  obtain ⟨e, hc, hes⟩ := gatherInversestream_ok hx
  obtain ⟨_, _, _, _, _, _, _, _, _, _, _, _, _, _, _, _, he⟩ :=
    invCore_ok_elim hc
  exact ⟨e, hes, by rw [he]⟩

theorem up_single {t : TagMap} : ∀ x es2,
    gatherUpsteam t x = (es2, none) →
    ∃ e, es2 = [e] ∧ e.measurement = "upstream" := by
  intro x es2 hx
  obtain ⟨e, hc, hes⟩ := gatherUpsteam_ok hx
  obtain ⟨_, _, _, _, _, _, _, _, _, _, _, _, he⟩ := upCore_ok_elim hc
  exact ⟨e, hes, by rw [he]⟩

theorem front_single {t : TagMap} : ∀ x es2,
    gatherFrontstream t x = (es2, none) →
    ∃ e, es2 = [e] ∧ e.measurement = "frontstream" := by
  intro x es2 hx
  obtain ⟨e, hc, hes⟩ := gatherFrontstream_ok hx
  obtain ⟨_, _, _, _, _, _, _, _, he⟩ := frontCore_ok_elim hc
  exact ⟨e, hes, by rw [he]⟩

/-- C3: on a successful pass over a decoded document, every entry of
every section yields exactly one primary emission under the fixed
measurement name of its section (`"inversestream"`, `"upstream"`, the
verbatim `"downsteram"`, `"frontstream"`); every emission carries one of
those names or a secondary name (`"dsc"`/`"fbs"`), and secondary
emissions can only arise from Downstream entries. -/
theorem c3_one_primary_per_entry {t : TagMap} {doc : MgdStatus}
    {es : List Emission} (h : mapServer t doc = (es, none)) :
    countMeas es "inversestream" = doc.inversestream.length ∧
    countMeas es "upstream" = doc.upstream.length ∧
    countMeas es "downsteram" = doc.downsteram.length ∧
    countMeas es "frontstream" = doc.frontstream.length ∧
    (∀ e ∈ es, e.measurement = "inversestream" ∨ e.measurement = "upstream" ∨
      e.measurement = "downsteram" ∨ e.measurement = "frontstream" ∨
      e.measurement = "dsc" ∨ e.measurement = "fbs") ∧
    (∀ e ∈ es, (e.measurement = "dsc" ∨ e.measurement = "fbs") →
      doc.downsteram ≠ []) := by
  obtain ⟨esI, esU, esD, esF, hI, hU, hD, hF, hsum⟩ := mapServer_ok h
  obtain ⟨lI, mI⟩ := runList_singles inv_single hI
  obtain ⟨lU, mU⟩ := runList_singles up_single hU
  obtain ⟨lF, mF⟩ := runList_singles front_single hF
  obtain ⟨cD, mD⟩ := runDown_props hD
  have memD : ∀ e ∈ esD, e.measurement = "downsteram" ∨
      e.measurement = "dsc" ∨ e.measurement = "fbs" := mD
  have countI : ∀ nm, nm ≠ "inversestream" → countMeas esI nm = 0 := by
    intro nm hnm
    exact countMeas_zero fun e he => by rw [mI e he]; exact fun hc => hnm hc.symm
  have countU : ∀ nm, nm ≠ "upstream" → countMeas esU nm = 0 := by
    intro nm hnm
    exact countMeas_zero fun e he => by rw [mU e he]; exact fun hc => hnm hc.symm
  have countF : ∀ nm, nm ≠ "frontstream" → countMeas esF nm = 0 := by
    intro nm hnm
    exact countMeas_zero fun e he => by rw [mF e he]; exact fun hc => hnm hc.symm
  have countD0 : ∀ nm, nm ≠ "downsteram" → nm ≠ "dsc" → nm ≠ "fbs" →
      countMeas esD nm = 0 := by
    intro nm h1 h2 h3
    apply countMeas_zero
    intro e he
    rcases memD e he with hd | hd | hd <;>
      (rw [hd]; intro hc; first
        | exact h1 hc.symm
        | exact h2 hc.symm
        | exact h3 hc.symm)
  subst hsum
  refine ⟨?_, ?_, ?_, ?_, ?_, ?_⟩
  · simp only [countMeas_append]
    rw [countMeas_all mI, lI, countU _ (by decide), countD0 _ (by decide)
      (by decide) (by decide), countF _ (by decide)]
    omega
  · simp only [countMeas_append]
    rw [countMeas_all mU, lU, countI _ (by decide), countD0 _ (by decide)
      (by decide) (by decide), countF _ (by decide)]
    omega
  · simp only [countMeas_append]
    rw [cD, countI _ (by decide), countU _ (by decide), countF _ (by decide)]
    omega
  · simp only [countMeas_append]
    rw [countMeas_all mF, lF, countI _ (by decide), countU _ (by decide),
      countD0 _ (by decide) (by decide) (by decide)]
    omega
  · intro e he
    rcases List.mem_append.mp he with hm | hm
    · rcases List.mem_append.mp hm with hm2 | hm2
      · rcases List.mem_append.mp hm2 with hm3 | hm3
        · exact Or.inl (mI e hm3)
        · exact Or.inr (Or.inl (mU e hm3))
      · rcases memD e hm2 with hd | hd | hd
        · exact Or.inr (Or.inr (Or.inl hd))
        · exact Or.inr (Or.inr (Or.inr (Or.inr (Or.inl hd))))
        · exact Or.inr (Or.inr (Or.inr (Or.inr (Or.inr hd))))
    · exact Or.inr (Or.inr (Or.inr (Or.inl (mF e hm))))
  · intro e he hsec hnil
    rw [hnil] at hD
    have hDnil : esD = [] := by
      simp [runList] at hD
      exact hD
    subst hDnil
    have hmeas : e.measurement = "inversestream" ∨
        e.measurement = "upstream" ∨ e.measurement = "frontstream" := by
      rcases List.mem_append.mp he with hm | hm
      · rcases List.mem_append.mp hm with hm2 | hm2
        · rcases List.mem_append.mp hm2 with hm3 | hm3
          · exact Or.inl (mI e hm3)
          · exact Or.inr (Or.inl (mU e hm3))
        · exact absurd hm2 (List.not_mem_nil e)
      · exact Or.inr (Or.inr (mF e hm))
    rcases hsec with hs | hs <;> rcases hmeas with hm | hm | hm <;>
      (rw [hs] at hm; revert hm; decide)

/-! ## C3 witness, C5, C6, C7 -/

/-- Witness for C3 at a concrete document with one entry per section. -/
theorem c3_witness :
    mapServer [("server", "s")] sampleDoc =
      ((mapServer [("server", "s")] sampleDoc).1, none) ∧
    (countMeas (mapServer [("server", "s")] sampleDoc).1 "inversestream" =
      sampleDoc.inversestream.length ∧
    countMeas (mapServer [("server", "s")] sampleDoc).1 "upstream" =
      sampleDoc.upstream.length ∧
    countMeas (mapServer [("server", "s")] sampleDoc).1 "downsteram" =
      sampleDoc.downsteram.length ∧
    countMeas (mapServer [("server", "s")] sampleDoc).1 "frontstream" =
      sampleDoc.frontstream.length ∧
    (∀ e ∈ (mapServer [("server", "s")] sampleDoc).1,
      e.measurement = "inversestream" ∨ e.measurement = "upstream" ∨
      e.measurement = "downsteram" ∨ e.measurement = "frontstream" ∨
      e.measurement = "dsc" ∨ e.measurement = "fbs") ∧
    (∀ e ∈ (mapServer [("server", "s")] sampleDoc).1,
      (e.measurement = "dsc" ∨ e.measurement = "fbs") →
      sampleDoc.downsteram ≠ [])) :=
  ⟨by rfl, @c3_one_primary_per_entry [("server", "s")] sampleDoc
    ((mapServer [("server", "s")] sampleDoc).1) (by rfl)⟩

/-- Helper for C5: a failing Downstream entry aborts the pass there,
keeping exactly the emissions delivered before the failure. -/
theorem mapServer_downfail {t : TagMap} {doc : MgdStatus} {e : String}
    {pre post : List Entry} {bad : Entry}
    (hI : (runList (gatherInversestream t) doc.inversestream).2 = none)
    (hU : (runList (gatherUpsteam t) doc.upstream).2 = none)
    (hsplit : doc.downsteram = pre ++ bad :: post)
    (hpre : ∀ s ∈ pre, (gatherDownsteram t s).2 = none)
    (hbad : (gatherDownsteram t bad).2 = some e) :
    mapServer t doc =
      ((runList (gatherInversestream t) doc.inversestream).1 ++
       (runList (gatherUpsteam t) doc.upstream).1 ++
       ((pre.map (fun s => (gatherDownsteram t s).1)).flatten ++
        (gatherDownsteram t bad).1), some e) := by
  unfold mapServer
  dsimp only
  rw [hI]
  dsimp only
  rw [hU]
  dsimp only
  rw [hsplit, runList_fail post hpre hbad]

/-- C5 as written is refuted: when the second Downstream entry of
`partialDoc` lacks its `"name"` key, the per-server pass fails, yet the
accumulator has already received an emission of the `"downsteram"`
section (the first entry's primary emission), i.e. there IS a partial
emission of the half-processed section. -/
theorem c5_counterexample :
    (mapServer [("server", "s")] partialDoc).2.isSome = true ∧
    countMeas (mapServer [("server", "s")] partialDoc).1 "downsteram" = 1 :=
  ⟨by rfl, by rfl⟩

/-- Helper for C5: a failing Inversestream entry aborts the pass
there. -/
theorem mapServer_invfail {t : TagMap} {doc : MgdStatus} {e : String}
    {pre post : List Entry} {bad : Entry}
    (hsplit : doc.inversestream = pre ++ bad :: post)
    (hpre : ∀ s ∈ pre, (gatherInversestream t s).2 = none)
    (hbad : (gatherInversestream t bad).2 = some e) :
    mapServer t doc =
      ((pre.map (fun s => (gatherInversestream t s).1)).flatten ++
       (gatherInversestream t bad).1, some e) := by
  unfold mapServer
  dsimp only
  rw [hsplit, runList_fail post hpre hbad]

/-- Helper for C5: a failing Upstream entry aborts the pass there,
after the Inversestream section was processed. -/
theorem mapServer_upfail {t : TagMap} {doc : MgdStatus} {e : String}
    {pre post : List Entry} {bad : Entry}
    (hI : (runList (gatherInversestream t) doc.inversestream).2 = none)
    (hsplit : doc.upstream = pre ++ bad :: post)
    (hpre : ∀ s ∈ pre, (gatherUpsteam t s).2 = none)
    (hbad : (gatherUpsteam t bad).2 = some e) :
    mapServer t doc =
      ((runList (gatherInversestream t) doc.inversestream).1 ++
       ((pre.map (fun s => (gatherUpsteam t s).1)).flatten ++
        (gatherUpsteam t bad).1), some e) := by
  unfold mapServer
  dsimp only
  rw [hI]
  dsimp only
  rw [hsplit, runList_fail post hpre hbad]

/-- Helper for C5: a failing Frontstream entry aborts the pass there,
after the three earlier sections were processed. -/
theorem mapServer_frontfail {t : TagMap} {doc : MgdStatus} {e : String}
    {pre post : List Entry} {bad : Entry}
    (hI : (runList (gatherInversestream t) doc.inversestream).2 = none)
    (hU : (runList (gatherUpsteam t) doc.upstream).2 = none)
    (hD : (runList (gatherDownsteram t) doc.downsteram).2 = none)
    (hsplit : doc.frontstream = pre ++ bad :: post)
    (hpre : ∀ s ∈ pre, (gatherFrontstream t s).2 = none)
    (hbad : (gatherFrontstream t bad).2 = some e) :
    mapServer t doc =
      ((runList (gatherInversestream t) doc.inversestream).1 ++
       (runList (gatherUpsteam t) doc.upstream).1 ++
       (runList (gatherDownsteram t) doc.downsteram).1 ++
       ((pre.map (fun s => (gatherFrontstream t s).1)).flatten ++
        (gatherFrontstream t bad).1), some e) := by
  unfold mapServer
  dsimp only
  rw [hI]
  dsimp only
  rw [hU]
  dsimp only
  rw [hD]
  dsimp only
  rw [hsplit, runList_fail post hpre hbad]

/-- Helper for C5: any failure of the mapping pass propagates through
`gatherServer` and `Gather` to the caller. -/
theorem gather_propagates {fetch : String → Except String MgdStatus}
    {address : String} {doc : MgdStatus} {e : String}
    (hf : fetch (resolveAddress address) = Except.ok doc)
    (hm : (mapServer [("server", resolveAddress address)] doc).2 =
      some e) :
    (gatherServer fetch address).err = some e ∧
    (Gather [address] fetch).err = some e := by
  have hgs : (gatherServer fetch address).err = some e := by
    unfold gatherServer
    dsimp only
    rw [hf]
    dsimp only
    exact hm
  refine ⟨hgs, ?_⟩
  unfold Gather gatherLoop
  rw [show (([address] : List String).length == 0) = false from rfl,
    if_neg (show ¬(false = true) by simp)]
  dsimp only
  rw [hgs]

/-- C5 (amended): if any entry of any of the four sections lacks an
expected key, the whole per-server pass fails with that error — no
later entry or section is processed and the failing entry's primary
emission is not delivered — and the error propagates through
`gatherServer` and `Gather` to the caller; however, the emissions
delivered before the failing assertion (earlier sections, earlier
entries of the same section, and secondary emissions of the failing
Downstream entry emitted before the failing key) have already reached
the accumulator. -/
theorem c5_failfast_error_propagation :
    (∀ (t : TagMap) (doc : MgdStatus) (e : String)
        (pre post : List Entry) (bad : Entry),
      doc.inversestream = pre ++ bad :: post →
      (∀ s ∈ pre, (gatherInversestream t s).2 = none) →
      (gatherInversestream t bad).2 = some e →
      mapServer t doc =
        ((pre.map (fun s => (gatherInversestream t s).1)).flatten ++
         (gatherInversestream t bad).1, some e)) ∧
    (∀ (t : TagMap) (doc : MgdStatus) (e : String)
        (pre post : List Entry) (bad : Entry),
      (runList (gatherInversestream t) doc.inversestream).2 = none →
      doc.upstream = pre ++ bad :: post →
      (∀ s ∈ pre, (gatherUpsteam t s).2 = none) →
      (gatherUpsteam t bad).2 = some e →
      mapServer t doc =
        ((runList (gatherInversestream t) doc.inversestream).1 ++
         ((pre.map (fun s => (gatherUpsteam t s).1)).flatten ++
          (gatherUpsteam t bad).1), some e)) ∧
    (∀ (t : TagMap) (doc : MgdStatus) (e : String)
        (pre post : List Entry) (bad : Entry),
      (runList (gatherInversestream t) doc.inversestream).2 = none →
      (runList (gatherUpsteam t) doc.upstream).2 = none →
      doc.downsteram = pre ++ bad :: post →
      (∀ s ∈ pre, (gatherDownsteram t s).2 = none) →
      (gatherDownsteram t bad).2 = some e →
      mapServer t doc =
        ((runList (gatherInversestream t) doc.inversestream).1 ++
         (runList (gatherUpsteam t) doc.upstream).1 ++
         ((pre.map (fun s => (gatherDownsteram t s).1)).flatten ++
          (gatherDownsteram t bad).1), some e)) ∧
    (∀ (t : TagMap) (doc : MgdStatus) (e : String)
        (pre post : List Entry) (bad : Entry),
      (runList (gatherInversestream t) doc.inversestream).2 = none →
      (runList (gatherUpsteam t) doc.upstream).2 = none →
      (runList (gatherDownsteram t) doc.downsteram).2 = none →
      doc.frontstream = pre ++ bad :: post →
      (∀ s ∈ pre, (gatherFrontstream t s).2 = none) →
      (gatherFrontstream t bad).2 = some e →
      mapServer t doc =
        ((runList (gatherInversestream t) doc.inversestream).1 ++
         (runList (gatherUpsteam t) doc.upstream).1 ++
         (runList (gatherDownsteram t) doc.downsteram).1 ++
         ((pre.map (fun s => (gatherFrontstream t s).1)).flatten ++
          (gatherFrontstream t bad).1), some e)) ∧
    (∀ (fetch : String → Except String MgdStatus) (address : String)
        (doc : MgdStatus) (e : String),
      fetch (resolveAddress address) = Except.ok doc →
      (mapServer [("server", resolveAddress address)] doc).2 = some e →
      (gatherServer fetch address).err = some e ∧
      (Gather [address] fetch).err = some e) := by
  refine ⟨?_, ?_, ?_, ?_, ?_⟩
  · intro t doc e pre post bad h1 h2 h3
    exact mapServer_invfail h1 h2 h3
  · intro t doc e pre post bad h0 h1 h2 h3
    exact mapServer_upfail h0 h1 h2 h3
  · intro t doc e pre post bad hI hU h1 h2 h3
    exact mapServer_downfail hI hU h1 h2 h3
  · intro t doc e pre post bad hI hU hD h1 h2 h3
    exact mapServer_frontfail hI hU hD h1 h2 h3
  · intro fetch address doc e hf hm
    exact gather_propagates hf hm

/-- Witness for (amended) C5: `partialDoc`, whose Downstream section is
a well-formed entry followed by one lacking `"name"`; the Downstream
clause is exercised directly and the failure is propagated through
`gatherServer` and `Gather` via the `fetchPartial` collaborator. -/
theorem c5_witness :
    (partialDoc.downsteram = [sampleDownEntry] ++ badDownEntry :: [] ∧
     (runList (gatherInversestream [("server", "s")])
       partialDoc.inversestream).2 = none ∧
     (runList (gatherUpsteam [("server", "s")]) partialDoc.upstream).2 =
      none ∧
     (∀ s ∈ [sampleDownEntry],
       (gatherDownsteram [("server", "s")] s).2 = none) ∧
     (gatherDownsteram [("server", "s")] badDownEntry).2 =
      some "interface conversion: not string" ∧
     fetchPartial (resolveAddress "x") = Except.ok partialDoc ∧
     (mapServer [("server", resolveAddress "x")] partialDoc).2 =
      some "interface conversion: not string") ∧
    mapServer [("server", "s")] partialDoc =
      ((runList (gatherInversestream [("server", "s")])
          partialDoc.inversestream).1 ++
       (runList (gatherUpsteam [("server", "s")]) partialDoc.upstream).1 ++
       (([sampleDownEntry].map (fun s =>
          (gatherDownsteram [("server", "s")] s).1)).flatten ++
        (gatherDownsteram [("server", "s")] badDownEntry).1),
       some "interface conversion: not string") ∧
    (gatherServer fetchPartial "x").err =
      some "interface conversion: not string" ∧
    (Gather ["x"] fetchPartial).err =
      some "interface conversion: not string" :=
  ⟨⟨by rfl, by rfl, by rfl,
    fun s hs => by rw [List.mem_singleton.mp hs]; rfl, by rfl, by rfl,
    by rfl⟩,
   c5_failfast_error_propagation.2.2.1 [("server", "s")] partialDoc
     "interface conversion: not string" [sampleDownEntry] [] badDownEntry
     (by rfl) (by rfl) (by rfl)
     (fun s hs => by rw [List.mem_singleton.mp hs]; rfl) (by rfl),
   (c5_failfast_error_propagation.2.2.2.2 fetchPartial "x" partialDoc
     "interface conversion: not string" (by rfl) (by rfl)).1,
   (c5_failfast_error_propagation.2.2.2.2 fetchPartial "x" partialDoc
     "interface conversion: not string" (by rfl) (by rfl)).2⟩

theorem gatherServer_fetched (fetch : String → Except String MgdStatus)
    (a : String) : (gatherServer fetch a).fetched = [resolveAddress a] := by
  unfold gatherServer
  dsimp only
  cases fetch (resolveAddress a) <;> rfl

theorem fetched_flatten (fetch : String → Except String MgdStatus)
    (l : List String) :
    (l.map (fun a => (gatherServer fetch a).fetched)).flatten =
      l.map resolveAddress := by
  induction l with
  | nil => rfl
  | cons a l2 ih =>
    rw [List.map_cons, List.flatten_cons, gatherServer_fetched, ih]
    simp

theorem gatherLoop_fail {fetch : String → Except String MgdStatus}
    {pre : List String} {s : String} {e : String} (post : List String)
    (hpre : ∀ a ∈ pre, (gatherServer fetch a).err = none)
    (hs : (gatherServer fetch s).err = some e) :
    (gatherLoop fetch (pre ++ s :: post)).err = some e ∧
    (gatherLoop fetch (pre ++ s :: post)).fetched =
      (pre.map (fun a => (gatherServer fetch a).fetched)).flatten ++
      (gatherServer fetch s).fetched := by
  induction pre with
  | nil =>
    simp [gatherLoop, hs]
  | cons a pre2 ih =>
    have ha : (gatherServer fetch a).err = none := hpre a (by simp)
    obtain ⟨ih1, ih2⟩ := ih fun y hy => hpre y (by simp [hy])
    simp [gatherLoop, List.append_eq, ha, ih1, ih2]

/-- C6: servers are processed sequentially in configuration order; if
one server's pass fails, `Gather` returns that error and the remaining
servers are not fetched (the fetched-address trace stops at the failing
server). -/
theorem c6_gather_failfast {fetch : String → Except String MgdStatus}
    {pre post : List String} {s : String} {e : String}
    (hpre : ∀ a ∈ pre, (gatherServer fetch a).err = none)
    (hs : (gatherServer fetch s).err = some e) :
    (Gather (pre ++ s :: post) fetch).err = some e ∧
    (Gather (pre ++ s :: post) fetch).fetched =
      (pre ++ [s]).map resolveAddress := by
  have hne : ((pre ++ s :: post).length == 0) = false := by simp
  unfold Gather
  rw [hne, if_neg (show ¬(false = true) by simp)]
  obtain ⟨h1, h2⟩ := gatherLoop_fail post hpre hs
  refine ⟨h1, ?_⟩
  rw [h2, fetched_flatten, gatherServer_fetched]
  simp

/-- Witness for C6: a transport error on the first of two servers stops
the pass before the second is fetched. -/
theorem c6_witness :
    (∀ a ∈ ([] : List String), (gatherServer fetchRefused a).err = none) ∧
    (gatherServer fetchRefused "x").err = some "connection refused" ∧
    (Gather ["x", "y"] fetchRefused).err = some "connection refused" ∧
    (Gather ["x", "y"] fetchRefused).fetched = ["x:50000"] := by
  have hc := @c6_gather_failfast fetchRefused [] ["y"] "x"
    "connection refused" (fun a ha => absurd ha (List.not_mem_nil a))
    (by rfl)
  have hc2 : (Gather ["x", "y"] fetchRefused).fetched =
      List.map resolveAddress ([] ++ ["x"]) := hc.2
  exact ⟨fun a ha => absurd ha (List.not_mem_nil a), by rfl, hc.1,
    by rw [hc2]; rfl⟩

/-- C7: the default port `":50000"` is appended exactly when
`net.SplitHostPort` can extract no port from the configured address
(so `"b"` is fetched from `"b:50000"` while `"a:1"` is fetched
unchanged), and an empty server list results in exactly one fetch, of
the single default address `":50000"`. -/
theorem c7_address_defaulting :
    (∀ a, splitHostPortErr a = true → resolveAddress a = a ++ ":50000") ∧
    (∀ a, splitHostPortErr a = false → resolveAddress a = a) ∧
    resolveAddress "a:1" = "a:1" ∧
    resolveAddress "b" = "b:50000" ∧
    (∀ fetch, (Gather [] fetch).fetched = [":50000"]) ∧
    (∀ fetch, (∀ a, fetch a = Except.ok emptyDoc) →
      (Gather ["a:1", "b"] fetch).fetched = ["a:1", "b:50000"]) := by
  refine ⟨?_, ?_, by rfl, by rfl, ?_, ?_⟩
  · intro a h
    simp [resolveAddress, h]
  · intro a h
    simp [resolveAddress, h]
  · intro fetch
    show (gatherServer fetch ":50000").fetched = [":50000"]
    rw [gatherServer_fetched]
    rfl
  · intro fetch hf
    have h1 : gatherServer fetch "a:1" = GatherOut.mk ["a:1"] [] none := by
      unfold gatherServer
      dsimp only
      rw [hf]
      rfl
    have h2 : gatherServer fetch "b" = GatherOut.mk ["b:50000"] [] none := by
      unfold gatherServer
      dsimp only
      rw [hf]
      rfl
    show (gatherLoop fetch ["a:1", "b"]).fetched = ["a:1", "b:50000"]
    unfold gatherLoop
    rw [h1]
    dsimp only
    unfold gatherLoop
    rw [h2]
    rfl

/-- Witness for C7 with the always-succeeding empty-document fetch. -/
theorem c7_witness :
    (∀ a, fetchEmpty a = Except.ok emptyDoc) ∧
    (Gather ["a:1", "b"] fetchEmpty).fetched = ["a:1", "b:50000"] :=
  ⟨fun _ => rfl,
   c7_address_defaulting.2.2.2.2.2 fetchEmpty (fun _ => rfl)⟩

/-! ## C9: tag-map copy isolation (heap-instrumented embedding) -/

theorem heapExtends_refl (h : Heap) : heapExtends h h := ⟨[], by simp⟩

theorem heapExtends_trans {h1 h2 h3 : Heap} (a : heapExtends h1 h2)
    (b : heapExtends h2 h3) : heapExtends h1 h3 := by
  obtain ⟨d1, hd1⟩ := a
  obtain ⟨d2, hd2⟩ := b
  exact ⟨d1 ++ d2, by rw [hd2, hd1, List.append_assoc]⟩

theorem heapExtends_len {h1 h2 : Heap} (a : heapExtends h1 h2) :
    h1.cells.length ≤ h2.cells.length := by
  obtain ⟨d, hd⟩ := a
  simp [hd]

theorem heapExtends_read {h1 h2 : Heap} (a : heapExtends h1 h2) {r : Nat}
    (hr : r < h1.cells.length) : h2.read r = h1.read r := by
  obtain ⟨d, hd⟩ := a
  unfold Heap.read
  rw [hd, List.getElem?_append_left hr]

theorem read_write_ne (h : Heap) {r1 r2 : Nat} (m : TagMap)
    (hne : r1 ≠ r2) : (h.write r1 m).read r2 = h.read r2 := by
  unfold Heap.read Heap.write
  dsimp only
  rw [List.getElem?_set_ne hne]

theorem refsFresh_nil (h1 h2 : Heap) : refsFresh h1 h2 [] :=
  ⟨List.nodup_nil, by simp⟩

theorem refsFresh_weaken {h0 h1 h2 : Heap} {es : List EmissionH}
    (e01 : heapExtends h0 h1) (f : refsFresh h1 h2 es) :
    refsFresh h0 h2 es := by
  obtain ⟨n, b⟩ := f
  exact ⟨n, fun e he =>
    ⟨le_trans (heapExtends_len e01) (b e he).1, (b e he).2⟩⟩

theorem refsFresh_comp {h1 h2 h3 : Heap} {es1 es2 : List EmissionH}
    (e12 : heapExtends h1 h2) (e23 : heapExtends h2 h3)
    (f1 : refsFresh h1 h2 es1) (f2 : refsFresh h2 h3 es2) :
    refsFresh h1 h3 (es1 ++ es2) := by
  obtain ⟨n1, b1⟩ := f1
  obtain ⟨n2, b2⟩ := f2
  constructor
  · rw [List.map_append]
    refine List.Nodup.append n1 n2 ?_
    intro r hr1 hr2
    obtain ⟨e1, he1, hre1⟩ := List.mem_map.mp hr1
    obtain ⟨e2, he2, hre2⟩ := List.mem_map.mp hr2
    have hb1 := (b1 e1 he1).2
    have hb2 := (b2 e2 he2).1
    rw [hre1] at hb1
    rw [hre2] at hb2
    omega
  · intro e he
    rcases List.mem_append.mp he with hm | hm
    · exact ⟨(b1 e hm).1, lt_of_lt_of_le (b1 e hm).2 (heapExtends_len e23)⟩
    · exact ⟨le_trans (heapExtends_len e12) (b2 e hm).1, (b2 e hm).2⟩

theorem gatherInversestreamH_fresh (tr : Nat) (s : Entry) (h : Heap) :
    heapExtends h (gatherInversestreamH tr s h).2 ∧
    refsFresh h (gatherInversestreamH tr s h).2
      (gatherInversestreamH tr s h).1.1 := by
  unfold gatherInversestreamH
  cases hc : invCore (h.read tr) s with
  | error err =>
    dsimp only
    exact ⟨heapExtends_refl h, refsFresh_nil h h⟩
  | ok e =>
    dsimp only [Heap.alloc]
    refine ⟨⟨[e.tags], rfl⟩, by simp, ?_⟩
    intro e2 he2
    rw [List.mem_singleton.mp he2]
    exact ⟨le_refl _, by simp⟩

theorem gatherUpsteamH_fresh (tr : Nat) (s : Entry) (h : Heap) :
    heapExtends h (gatherUpsteamH tr s h).2 ∧
    refsFresh h (gatherUpsteamH tr s h).2 (gatherUpsteamH tr s h).1.1 := by
  unfold gatherUpsteamH
  cases hc : upCore (h.read tr) s with
  | error err =>
    dsimp only
    exact ⟨heapExtends_refl h, refsFresh_nil h h⟩
  | ok e =>
    dsimp only [Heap.alloc]
    refine ⟨⟨[e.tags], rfl⟩, by simp, ?_⟩
    intro e2 he2
    rw [List.mem_singleton.mp he2]
    exact ⟨le_refl _, by simp⟩

theorem gatherFrontstreamH_fresh (tr : Nat) (s : Entry) (h : Heap) :
    heapExtends h (gatherFrontstreamH tr s h).2 ∧
    refsFresh h (gatherFrontstreamH tr s h).2
      (gatherFrontstreamH tr s h).1.1 := by
  unfold gatherFrontstreamH
  cases hc : frontCore (h.read tr) s with
  | error err =>
    dsimp only
    exact ⟨heapExtends_refl h, refsFresh_nil h h⟩
  | ok e =>
    dsimp only [Heap.alloc]
    refine ⟨⟨[e.tags], rfl⟩, by simp, ?_⟩
    intro e2 he2
    rw [List.mem_singleton.mp he2]
    exact ⟨le_refl _, by simp⟩

theorem downLoopH_fresh (accTags : TagMap) (l : List (String × GoVal)) :
    ∀ h : Heap, heapExtends h (downLoopH accTags l h).2 ∧
      refsFresh h (downLoopH accTags l h).2 (downLoopH accTags l h).1.1 := by
  induction l with
  | nil =>
    intro h
    simp only [downLoopH]
    exact ⟨heapExtends_refl h, refsFresh_nil h h⟩
  | cons kv rest ih =>
    intro h
    by_cases hc : hasPre "code-" kv.1 = true
    · simp only [downLoopH, hc, if_true]
      cases ho : asObj kv.2 with
      | error err =>
        dsimp only
        exact ⟨heapExtends_refl h, refsFresh_nil h h⟩
      | ok fs =>
        dsimp only [Heap.alloc]
        obtain ⟨ihe, ihf⟩ := ih
          (Heap.mk (h.cells ++ [upsert (copyTags accTags) "code"
            (strDrop kv.1 5)]))
        have hlen1 : (Heap.mk (h.cells ++ [upsert (copyTags accTags)
            "code" (strDrop kv.1 5)])).cells.length =
            h.cells.length + 1 := by simp
        refine ⟨heapExtends_trans ⟨[upsert (copyTags accTags) "code"
          (strDrop kv.1 5)], rfl⟩ ihe, ?_, ?_⟩
        · rw [List.map_cons]
          refine List.nodup_cons.mpr ⟨?_, ihf.1⟩
          intro hmem
          obtain ⟨e2, he2, hre⟩ := List.mem_map.mp hmem
          have hb := (ihf.2 e2 he2).1
          rw [hlen1] at hb
          rw [hre] at hb
          dsimp only at hb
          omega
        · intro e2 he2
          rcases List.mem_cons.mp he2 with heq | hmem
          · rw [heq]
            refine ⟨le_refl _, ?_⟩
            have hb := heapExtends_len ihe
            rw [hlen1] at hb
            dsimp only
            omega
          · have hb := ihf.2 e2 hmem
            rw [hlen1] at hb
            exact ⟨by omega, hb.2⟩
    · by_cases hf : hasPre "fbs-" kv.1 = true
      · simp only [downLoopH, hc, hf, if_true, if_false, Bool.false_eq_true]
        cases ho : asObj kv.2 with
        | error err =>
          dsimp only
          exact ⟨heapExtends_refl h, refsFresh_nil h h⟩
        | ok fs =>
          dsimp only [Heap.alloc]
          obtain ⟨ihe, ihf⟩ := ih
            (Heap.mk (h.cells ++ [upsert (copyTags accTags) "fbs"
              (strDrop kv.1 4)]))
          have hlen1 : (Heap.mk (h.cells ++ [upsert (copyTags accTags)
              "fbs" (strDrop kv.1 4)])).cells.length =
              h.cells.length + 1 := by simp
          refine ⟨heapExtends_trans ⟨[upsert (copyTags accTags) "fbs"
            (strDrop kv.1 4)], rfl⟩ ihe, ?_, ?_⟩
          · rw [List.map_cons]
            refine List.nodup_cons.mpr ⟨?_, ihf.1⟩
            intro hmem
            obtain ⟨e2, he2, hre⟩ := List.mem_map.mp hmem
            have hb := (ihf.2 e2 he2).1
            rw [hlen1] at hb
            rw [hre] at hb
            dsimp only at hb
            omega
          · intro e2 he2
            rcases List.mem_cons.mp he2 with heq | hmem
            · rw [heq]
              refine ⟨le_refl _, ?_⟩
              have hb := heapExtends_len ihe
              rw [hlen1] at hb
              dsimp only
              omega
            · have hb := ihf.2 e2 hmem
              rw [hlen1] at hb
              exact ⟨by omega, hb.2⟩
      · simp only [downLoopH, hc, hf, if_false, Bool.false_eq_true]
        exact ih h

theorem gatherDownsteramH_fresh (tr : Nat) (s : Entry) (h : Heap) :
    heapExtends h (gatherDownsteramH tr s h).2 ∧
    refsFresh h (gatherDownsteramH tr s h).2
      (gatherDownsteramH tr s h).1.1 := by
  unfold gatherDownsteramH
  cases hd : downCore (h.read tr) s with
  | error err =>
    dsimp only
    exact ⟨heapExtends_refl h, refsFresh_nil h h⟩
  | ok af =>
    dsimp only [Heap.alloc]
    obtain ⟨le, lf⟩ := downLoopH_fresh af.1 s (Heap.mk (h.cells ++ [af.1]))
    have hlen1 : (Heap.mk (h.cells ++ [af.1])).cells.length =
        h.cells.length + 1 := by simp
    have hext : heapExtends h
        (downLoopH af.1 s (Heap.mk (h.cells ++ [af.1]))).2 :=
      heapExtends_trans ⟨[af.1], rfl⟩ le
    cases hl : (downLoopH af.1 s (Heap.mk (h.cells ++ [af.1]))).1.2 with
    | some err =>
      dsimp only
      exact ⟨hext, refsFresh_weaken ⟨[af.1], rfl⟩ lf⟩
    | none =>
      dsimp only
      refine ⟨hext, ?_, ?_⟩
      · rw [List.map_append]
        refine List.Nodup.append lf.1 (List.nodup_singleton _) ?_
        intro r hr1 hr2
        obtain ⟨e2, he2, hre⟩ := List.mem_map.mp hr1
        have hb := (lf.2 e2 he2).1
        rw [hlen1] at hb
        rw [hre] at hb
        rw [List.mem_singleton.mp hr2] at hb
        dsimp only at hb
        omega
      · intro e2 he2
        rcases List.mem_append.mp he2 with hm | hm
        · have hb := lf.2 e2 hm
          rw [hlen1] at hb
          exact ⟨by omega, hb.2⟩
        · rw [List.mem_singleton.mp hm]
          refine ⟨le_refl _, ?_⟩
          have hb := heapExtends_len le
          rw [hlen1] at hb
          dsimp only
          omega

theorem runListH_fresh {α : Type}
    {f : α → Heap → (List EmissionH × Option String) × Heap}
    (hf : ∀ x h2, heapExtends h2 (f x h2).2 ∧
      refsFresh h2 (f x h2).2 (f x h2).1.1) (l : List α) :
    ∀ h : Heap, heapExtends h (runListH f l h).2 ∧
      refsFresh h (runListH f l h).2 (runListH f l h).1.1 := by
  induction l with
  | nil =>
    intro h
    simp only [runListH]
    exact ⟨heapExtends_refl h, refsFresh_nil h h⟩
  | cons x xs ih =>
    intro h
    unfold runListH
    obtain ⟨he1, hf1⟩ := hf x h
    cases hx : (f x h).1.2 with
    | some err =>
      dsimp only
      rw [hx]
      dsimp only
      exact ⟨he1, hf1⟩
    | none =>
      dsimp only
      rw [hx]
      dsimp only
      obtain ⟨he2, hf2⟩ := ih (f x h).2
      exact ⟨heapExtends_trans he1 he2, refsFresh_comp he1 he2 hf1 hf2⟩

theorem mapServerH_fresh (tr : Nat) (doc : MgdStatus) (h : Heap) :
    heapExtends h (mapServerH tr doc h).2 ∧
    refsFresh h (mapServerH tr doc h).2 (mapServerH tr doc h).1.1 := by
  unfold mapServerH
  dsimp only
  obtain ⟨eI, fI⟩ := runListH_fresh
    (fun x h2 => gatherInversestreamH_fresh tr x h2) doc.inversestream h
  cases hI : (runListH (gatherInversestreamH tr) doc.inversestream h).1.2
    with
  | some err =>
    dsimp only
    exact ⟨eI, fI⟩
  | none =>
    dsimp only
    obtain ⟨eU, fU⟩ := runListH_fresh
      (fun x h2 => gatherUpsteamH_fresh tr x h2) doc.upstream
      (runListH (gatherInversestreamH tr) doc.inversestream h).2
    cases hU : (runListH (gatherUpsteamH tr) doc.upstream
        (runListH (gatherInversestreamH tr) doc.inversestream h).2).1.2
      with
    | some err =>
      dsimp only
      exact ⟨heapExtends_trans eI eU, refsFresh_comp eI eU fI fU⟩
    | none =>
      dsimp only
      obtain ⟨eD, fD⟩ := runListH_fresh
        (fun x h2 => gatherDownsteramH_fresh tr x h2) doc.downsteram
        (runListH (gatherUpsteamH tr) doc.upstream
          (runListH (gatherInversestreamH tr) doc.inversestream h).2).2
      cases hD : (runListH (gatherDownsteramH tr) doc.downsteram
          (runListH (gatherUpsteamH tr) doc.upstream
            (runListH (gatherInversestreamH tr)
              doc.inversestream h).2).2).1.2 with
      | some err =>
        dsimp only
        exact ⟨heapExtends_trans (heapExtends_trans eI eU) eD,
          refsFresh_comp (heapExtends_trans eI eU) eD
            (refsFresh_comp eI eU fI fU) fD⟩
      | none =>
        dsimp only
        obtain ⟨eF, fF⟩ := runListH_fresh
          (fun x h2 => gatherFrontstreamH_fresh tr x h2) doc.frontstream
          (runListH (gatherDownsteramH tr) doc.downsteram
            (runListH (gatherUpsteamH tr) doc.upstream
              (runListH (gatherInversestreamH tr)
                doc.inversestream h).2).2).2
        exact ⟨heapExtends_trans
            (heapExtends_trans (heapExtends_trans eI eU) eD) eF,
          refsFresh_comp
            (heapExtends_trans (heapExtends_trans eI eU) eD) eF
            (refsFresh_comp (heapExtends_trans eI eU) eD
              (refsFresh_comp eI eU fI fU) fD) fF⟩

theorem nodup_refs_get_ne {es : List EmissionH}
    (hn : (es.map EmissionH.tagsRef).Nodup) {i j : Nat}
    (hi : i < es.length) (hj : j < es.length) (hij : i ≠ j) :
    (es.get ⟨i, hi⟩).tagsRef ≠ (es.get ⟨j, hj⟩).tagsRef := by
  intro hEq
  have hilen : i < (es.map EmissionH.tagsRef).length := by simp [hi]
  have hjlen : j < (es.map EmissionH.tagsRef).length := by simp [hj]
  have hgi : (es.map EmissionH.tagsRef).get ⟨i, hilen⟩ =
      (es.get ⟨i, hi⟩).tagsRef := by
    simp [List.get_map]
  have hgj : (es.map EmissionH.tagsRef).get ⟨j, hjlen⟩ =
      (es.get ⟨j, hj⟩).tagsRef := by
    simp [List.get_map]
  have hmap : (List.map EmissionH.tagsRef es).get ⟨i, hilen⟩ =
      (List.map EmissionH.tagsRef es).get ⟨j, hjlen⟩ := by
    rw [hgi, hgj]
    exact hEq
  have hfin := (List.Nodup.get_inj_iff hn).mp hmap
  exact hij (congrArg Fin.val hfin)

/-- C9: in the heap-instrumented embedding, every emission of a
per-server pass references its own freshly allocated tag-map cell:
the base tag map is left unchanged by every extraction routine, no
emission references the base cell, distinct emissions reference
distinct cells, and overwriting the cell of one emission after the
pass returns never alters the tag map read through another
emission's reference. -/
theorem c9_tag_map_copy_isolation (tr : Nat) (doc : MgdStatus) (h : Heap)
    (htr : tr < h.cells.length) :
    (mapServerH tr doc h).2.read tr = h.read tr ∧
    (∀ e ∈ (mapServerH tr doc h).1.1, e.tagsRef ≠ tr) ∧
    (∀ i j, ∀ hi : i < (mapServerH tr doc h).1.1.length,
      ∀ hj : j < (mapServerH tr doc h).1.1.length, i ≠ j →
      ((mapServerH tr doc h).1.1.get ⟨i, hi⟩).tagsRef ≠
        ((mapServerH tr doc h).1.1.get ⟨j, hj⟩).tagsRef ∧
      ∀ m, ((mapServerH tr doc h).2.write
          ((mapServerH tr doc h).1.1.get ⟨i, hi⟩).tagsRef m).read
            ((mapServerH tr doc h).1.1.get ⟨j, hj⟩).tagsRef =
        (mapServerH tr doc h).2.read
          ((mapServerH tr doc h).1.1.get ⟨j, hj⟩).tagsRef) := by
  obtain ⟨hext, hn, hb⟩ := mapServerH_fresh tr doc h
  refine ⟨heapExtends_read hext htr, ?_, ?_⟩
  · intro e he
    have := (hb e he).1
    omega
  · intro i j hi hj hij
    have hne := nodup_refs_get_ne hn hi hj hij
    exact ⟨hne, fun m => read_write_ne _ m hne⟩

/-- Witness for C9 at the sample document (several emissions) over a
one-cell base heap. -/
theorem c9_witness :
    0 < sampleHeap.cells.length ∧
    ((mapServerH 0 sampleDoc sampleHeap).2.read 0 = sampleHeap.read 0 ∧
     (∀ e ∈ (mapServerH 0 sampleDoc sampleHeap).1.1, e.tagsRef ≠ 0) ∧
     (∀ i j, ∀ hi : i < (mapServerH 0 sampleDoc sampleHeap).1.1.length,
       ∀ hj : j < (mapServerH 0 sampleDoc sampleHeap).1.1.length, i ≠ j →
       ((mapServerH 0 sampleDoc sampleHeap).1.1.get ⟨i, hi⟩).tagsRef ≠
         ((mapServerH 0 sampleDoc sampleHeap).1.1.get ⟨j, hj⟩).tagsRef ∧
       ∀ m, ((mapServerH 0 sampleDoc sampleHeap).2.write
           ((mapServerH 0 sampleDoc sampleHeap).1.1.get
             ⟨i, hi⟩).tagsRef m).read
             ((mapServerH 0 sampleDoc sampleHeap).1.1.get ⟨j, hj⟩).tagsRef =
         (mapServerH 0 sampleDoc sampleHeap).2.read
           ((mapServerH 0 sampleDoc sampleHeap).1.1.get ⟨j, hj⟩).tagsRef)) :=
  ⟨by decide, c9_tag_map_copy_isolation 0 sampleDoc sampleHeap (by decide)⟩

end Mgd
